import Mathlib

/-!
Verification development for the chess engine in this repository
(`core/game_state.py`, `core/move.py`, `ai/advanced_ai.py`).

The Python sources are shallowly embedded as executable Lean definitions:

* Each board square holds a two-character tag (`"wp"`, `"bK"`, `"--"`); it is
  embedded as a pair of characters `Sq`, with `c0` playing the role of
  `piece[0]` (the colour) and `c1` the role of `piece[1]` (the kind).
* Python lists indexed with `int` are embedded as Lean lists with an indexing
  function `pyIdx` that reproduces Python's negative-index wrap-around; an
  index that would raise `IndexError` (never reached on the executed paths)
  returns the supplied default.
* Mutation of `self` attributes is embedded by explicit state passing:
  a Python method that mutates attribute `x` becomes a Lean function that
  returns the updated value of `x` (or an updated state record).
* Python `int` is embedded as `Int` (arbitrary precision, no overflow);
  `//` on the non-negative operands that occur here agrees with `Int`
  division, which is used for it.
-/

namespace Chess

/-- One square of the board: the two characters of the Python tag
(for example `"wp"` is `⟨'w', 'p'⟩` and the empty square `"--"` is
`⟨'-', '-'⟩`). -/
structure Sq where
  c0 : Char
  c1 : Char
deriving DecidableEq, Repr

/-- The empty square tag `"--"`. -/
def sqE : Sq := ⟨'-', '-'⟩

def wp : Sq := ⟨'w', 'p'⟩
def wR : Sq := ⟨'w', 'R'⟩
def wN : Sq := ⟨'w', 'N'⟩
def wB : Sq := ⟨'w', 'B'⟩
def wQ : Sq := ⟨'w', 'Q'⟩
def wK : Sq := ⟨'w', 'K'⟩
def bp : Sq := ⟨'b', 'p'⟩
def bR : Sq := ⟨'b', 'R'⟩
def bN : Sq := ⟨'b', 'N'⟩
def bB : Sq := ⟨'b', 'B'⟩
def bQ : Sq := ⟨'b', 'Q'⟩
def bK : Sq := ⟨'b', 'K'⟩

/-- Python list indexing with an `int` index: negative indices wrap around
(`l[-1]` is the last element); a genuinely out-of-range index (which would
raise `IndexError` and never occurs on executed paths) returns `d`. -/
def pyIdx (l : List α) (d : α) (i : Int) : α :=
  let j : Int := if i < 0 then i + l.length else i
  if 0 ≤ j ∧ j < l.length then l.getD j.toNat d else d

/-- Python list item assignment `l[i] = v` (same index convention). -/
def pySet (l : List α) (i : Int) (v : α) : List α :=
  let j : Int := if i < 0 then i + l.length else i
  if 0 ≤ j ∧ j < l.length then l.set j.toNat v else l

/-- The board: `List[List[str]]` in the source, 8 rows of 8 squares. -/
abbrev Board := List (List Sq)

/-- The read `board[r][c]`. -/
def bGet (b : Board) (r c : Int) : Sq := pyIdx (pyIdx b [] r) sqE c

/-- The write `board[r][c] = v`. -/
def bSet (b : Board) (r c : Int) (v : Sq) : Board :=
  pySet b r (pySet (pyIdx b [] r) c v)

/-- CastleRights from `core/move.py` (constructor order wks, bks, wqs, bqs). -/
structure CastleRights where
  wks : Bool
  bks : Bool
  wqs : Bool
  bqs : Bool
deriving DecidableEq, Repr

/-- A pin or check entry `(row, col, dir_row, dir_col)` as built by
`check_for_pins_and_checks`. -/
abbrev Pin := Int × Int × Int × Int

/-- The Move class of `core/move.py` (the fields that take part in move
making, unmaking and equality). -/
structure MoveG where
  start_row : Int
  start_col : Int
  end_row : Int
  end_col : Int
  piece_moved : Sq
  piece_captured : Sq
  enPassant : Bool
  pawn_promotion : Bool
  is_castle_move : Bool
deriving DecidableEq, Repr

/-- Embeds `Move.__init__`: reads the moved and captured piece off the board; for an
en-passant move the captured piece is overridden with the opposing pawn. -/
def mkMove (sr sc er ec : Int) (board : Board) (enP pawnProm castle : Bool) : MoveG :=
  let pm := bGet board sr sc
  let cap0 := bGet board er ec
  let cap := if enP then (if pm = wp then bp else wp) else cap0
  ⟨sr, sc, er, ec, pm, cap, enP, pawnProm, castle⟩

/-- Embeds `Move.__eq__`: compares the coordinates, the moved piece and the three
special flags, but not the captured piece. -/
def MoveG.srcEq (a b : MoveG) : Bool :=
  a.start_row = b.start_row && a.start_col = b.start_col &&
  a.end_row = b.end_row && a.end_col = b.end_col &&
  a.piece_moved = b.piece_moved && a.pawn_promotion = b.pawn_promotion &&
  a.enPassant = b.enPassant && a.is_castle_move = b.is_castle_move

/-- Result of scanning one ray in `check_for_pins_and_checks`: the direction
contributes nothing, one check entry, or one pin entry. -/
inductive RayResult where
  | nothing
  | chk (c : Pin)
  | pin (p : Pin)

/-- The inner ray loop of `check_for_pins_and_checks` for one direction
`(dr, dc)` with direction index `j`.  The first allied non-king piece on the
ray becomes the pin candidate; a second allied piece ends the scan; an enemy
piece either delivers a check/pin (if its kind attacks along this ray) or
blocks.  An allied king on the ray is skipped (neither branch of the source
conditional fires), matching the source. -/
def scanRay (board : Board) (allyC enemyC : Char) (sr sc : Int) (j : Nat) (dr dc : Int) :
    RayResult :=
  go 7 1 none
where
  go : Nat → Int → Option Pin → RayResult
  | 0, _, _ => .nothing
  | n+1, i, pp =>
    let er := sr + dr * i
    let ec := sc + dc * i
    if 0 ≤ er ∧ er < 8 ∧ 0 ≤ ec ∧ ec < 8 then
      let p := bGet board er ec
      if p.c0 = allyC ∧ p.c1 ≠ 'K' then
        match pp with
        | none => go n (i+1) (some (er, ec, dr, dc))
        | some _ => .nothing
      else if p.c0 = enemyC then
        let t := p.c1
        if (j ≤ 3 ∧ t = 'R') ∨ (4 ≤ j ∧ j ≤ 7 ∧ t = 'B') ∨
            (i = 1 ∧ t = 'p' ∧
              ((enemyC = 'w' ∧ 6 ≤ j ∧ j ≤ 7) ∨ (enemyC = 'b' ∧ 4 ≤ j ∧ j ≤ 5))) ∨
            t = 'Q' ∨ (i = 1 ∧ t = 'K') then
          match pp with
          | none => .chk (er, ec, dr, dc)
          | some pin => .pin pin
        else .nothing
      else go n (i+1) pp
    else .nothing

/-- The eight ray directions of `check_for_pins_and_checks`, in source order
(the index in this list is the `j` of the source loop). -/
def pinDirections : List (Int × Int) :=
  [(-1, 0), (0, -1), (1, 0), (0, 1), (-1, -1), (-1, 1), (1, -1), (1, 1)]

/-- The eight knight offsets (shared by `check_for_pins_and_checks` and
`get_knight_move`). -/
def knightOffsets : List (Int × Int) :=
  [(-2, -1), (-2, 1), (-1, -2), (-1, 2), (1, -2), (1, 2), (2, -1), (2, 1)]

/-- Embeds `GameState.check_for_pins_and_checks`: returns `(in_check, pins, checks)`
for the side to move, scanning the eight rays from its king and the eight
knight squares. -/
def checkForPinsAndChecks (board : Board) (whiteToMove : Bool)
    (wKLoc bKLoc : Int × Int) : Bool × List Pin × List Pin :=
  let enemyC := if whiteToMove then 'b' else 'w'
  let allyC := if whiteToMove then 'w' else 'b'
  let sr := if whiteToMove then wKLoc.1 else bKLoc.1
  let sc := if whiteToMove then wKLoc.2 else bKLoc.2
  let base : Bool × List Pin × List Pin :=
    pinDirections.enum.foldl
      (fun acc jd =>
        let (inChk, pins, checks) := acc
        match scanRay board allyC enemyC sr sc jd.1 jd.2.1 jd.2.2 with
        | .nothing => (inChk, pins, checks)
        | .chk c => (true, pins, checks ++ [c])
        | .pin p => (inChk, pins ++ [p], checks))
      (false, [], [])
  knightOffsets.foldl
    (fun acc d =>
      let (inChk, pins, checks) := acc
      let er := sr + d.1
      let ec := sc + d.2
      if 0 ≤ er ∧ er < 8 ∧ 0 ≤ ec ∧ ec < 8 then
        let p := bGet board er ec
        if p.c0 = enemyC ∧ p.c1 = 'N' then (true, pins, checks ++ [(er, ec, d.1, d.2)])
        else (inChk, pins, checks)
      else (inChk, pins, checks))
    base

/-- The backwards scan `for i in range(len(pins)-1, -1, -1)` that each piece
generator runs over `self.pins`: it stops at the first entry (from the end)
whose square is `(r, c)`. -/
def findPinFromEnd (pins : List Pin) (r c : Int) : Option Pin :=
  pins.foldl (fun acc p => if p.1 = r ∧ p.2.1 = c then some p else acc) none

/-- Python `list.remove(x)`: drop the first element equal to `x`. -/
def pyRemove : List Pin → Pin → List Pin
  | [], _ => []
  | q :: rest, p => if q = p then rest else q :: pyRemove rest p

/-- Embeds `GameState.get_pawn_move` for the pawn on `(r, c)`.  The threaded `pins`
list is the mutable `self.pins`; a pinned pawn's entry is removed from it.
The local `pawn_promotion` flag of the source is threaded through the three
branches exactly as the source mutates it. -/
def getPawnMove (board : Board) (whiteToMove : Bool) (ep : Option (Int × Int))
    (pins : List Pin) (r c : Int) : List Pin × List MoveG :=
  let found := findPinFromEnd pins r c
  let piecePinned := found.isSome
  let pinDir : Int × Int := match found with
    | some p => (p.2.2.1, p.2.2.2)
    | none => (0, 0)
  let pins1 := match found with
    | some p => pyRemove pins p
    | none => pins
  let moveAmount : Int := if whiteToMove then -1 else 1
  let startRow : Int := if whiteToMove then 6 else 1
  let backRow : Int := if whiteToMove then 0 else 7
  let enemyColor : Char := if whiteToMove then 'b' else 'w'
  let pp0 := false
  let fwd :=
    if bGet board (r + moveAmount) c = sqE then
      if ¬piecePinned ∨ pinDir = (moveAmount, 0) then
        let pp := if r + moveAmount = backRow then true else pp0
        let ms := [mkMove r c (r + moveAmount) c board false pp false]
        let ms :=
          if r = startRow ∧ bGet board (r + 2 * moveAmount) c = sqE then
            ms ++ [mkMove r c (r + 2 * moveAmount) c board false false false]
          else ms
        (pp, ms)
      else (pp0, ([] : List MoveG))
    else (pp0, ([] : List MoveG))
  let pp1 := fwd.1
  let capL :=
    if (0 : Int) ≤ c - 1 then
      if ¬piecePinned ∨ pinDir = (moveAmount, -1) then
        let a :=
          if (bGet board (r + moveAmount) (c - 1)).c0 = enemyColor then
            let pp := if r + moveAmount = backRow then true else pp1
            (pp, [mkMove r c (r + moveAmount) (c - 1) board false pp false])
          else (pp1, ([] : List MoveG))
        let msB :=
          if some (r + moveAmount, c - 1) = ep then
            [mkMove r c (r + moveAmount) (c - 1) board true false false]
          else ([] : List MoveG)
        (a.1, a.2 ++ msB)
      else (pp1, ([] : List MoveG))
    else (pp1, ([] : List MoveG))
  let pp2 := capL.1
  let capR :=
    if c + 1 ≤ 7 then
      if ¬piecePinned ∨ pinDir = (moveAmount, 1) then
        let a :=
          if (bGet board (r + moveAmount) (c + 1)).c0 = enemyColor then
            let pp := if r + moveAmount = backRow then true else pp2
            (pp, [mkMove r c (r + moveAmount) (c + 1) board false pp false])
          else (pp2, ([] : List MoveG))
        let msB :=
          if some (r + moveAmount, c + 1) = ep then
            [mkMove r c (r + moveAmount) (c + 1) board true false false]
          else ([] : List MoveG)
        (a.1, a.2 ++ msB)
      else (pp2, ([] : List MoveG))
    else (pp2, ([] : List MoveG))
  (pins1, fwd.2 ++ capL.2 ++ capR.2)

/-- The inner `for i in range(1, 8)` loop of `get_sliding_moves` for one
direction.  When the piece is pinned in an incompatible direction the body is
skipped but the loop keeps running, exactly as in the source. -/
def slideRay (board : Board) (enemyC : Char) (piecePinned : Bool)
    (pinDir : Int × Int) (r c dr dc : Int) : List MoveG :=
  go 7 1
where
  go : Nat → Int → List MoveG
  | 0, _ => []
  | n+1, i =>
    let er := r + dr * i
    let ec := c + dc * i
    if 0 ≤ er ∧ er < 8 ∧ 0 ≤ ec ∧ ec < 8 then
      if ¬piecePinned ∨ pinDir = (dr, dc) ∨ pinDir = (-dr, -dc) then
        let p := bGet board er ec
        if p = sqE then mkMove r c er ec board false false false :: go n (i+1)
        else if p.c0 = enemyC then [mkMove r c er ec board false false false]
        else []
      else go n (i+1)
    else []

/-- Embeds `GameState.get_sliding_moves`: the queen's pin entry is looked up but not
removed from `self.pins` (the source removes it only for non-queen pieces). -/
def getSlidingMoves (board : Board) (whiteToMove : Bool) (pins : List Pin)
    (r c : Int) (dirs : List (Int × Int)) : List Pin × List MoveG :=
  let found := findPinFromEnd pins r c
  let piecePinned := found.isSome
  let pinDir : Int × Int := match found with
    | some p => (p.2.2.1, p.2.2.2)
    | none => (0, 0)
  let pins1 := match found with
    | some p => if (bGet board r c).c1 ≠ 'Q' then pyRemove pins p else pins
    | none => pins
  let moves := dirs.foldl
    (fun acc d => acc ++ slideRay board (if whiteToMove then 'b' else 'w')
      piecePinned pinDir r c d.1 d.2) []
  (pins1, moves)

/-- Embeds `GameState.get_rook_move`. -/
def getRookMove (board : Board) (whiteToMove : Bool) (pins : List Pin)
    (r c : Int) : List Pin × List MoveG :=
  getSlidingMoves board whiteToMove pins r c [(-1, 0), (0, -1), (1, 0), (0, 1)]

/-- Embeds `GameState.get_bishop_move`. -/
def getBishopMove (board : Board) (whiteToMove : Bool) (pins : List Pin)
    (r c : Int) : List Pin × List MoveG :=
  getSlidingMoves board whiteToMove pins r c [(-1, -1), (-1, 1), (1, -1), (1, 1)]

/-- Embeds `GameState.get_queen_move`. -/
def getQueenMove (board : Board) (whiteToMove : Bool) (pins : List Pin)
    (r c : Int) : List Pin × List MoveG :=
  getSlidingMoves board whiteToMove pins r c
    [(-1, 0), (0, -1), (1, 0), (0, 1), (-1, -1), (-1, 1), (1, -1), (1, 1)]

/-- Embeds `GameState.get_knight_move`: a pinned knight generates nothing. -/
def getKnightMove (board : Board) (whiteToMove : Bool) (pins : List Pin)
    (r c : Int) : List Pin × List MoveG :=
  let found := findPinFromEnd pins r c
  let piecePinned := found.isSome
  let pins1 := match found with
    | some p => pyRemove pins p
    | none => pins
  let allyC : Char := if whiteToMove then 'w' else 'b'
  let moves := knightOffsets.foldl
    (fun acc d =>
      let er := r + d.1
      let ec := c + d.2
      if 0 ≤ er ∧ er < 8 ∧ 0 ≤ ec ∧ ec < 8 then
        if ¬piecePinned then
          if (bGet board er ec).c0 ≠ allyC then
            acc ++ [mkMove r c er ec board false false false]
          else acc
        else acc
      else acc) []
  (pins1, moves)

/-- Embeds `GameState.get_king_move`: each destination is validated by temporarily
moving the cached king location and rerunning `check_for_pins_and_checks`
(the board itself is not modified, so the old king square still holds the
king — the ray scan skips allied kings for exactly this reason). -/
def getKingMove (board : Board) (whiteToMove : Bool) (wKLoc bKLoc : Int × Int)
    (r c : Int) : List MoveG :=
  let rowMoves : List Int := [-1, -1, -1, 0, 0, 1, 1, 1]
  let colMoves : List Int := [-1, 0, 1, -1, 1, -1, 0, 1]
  let allyC : Char := if whiteToMove then 'w' else 'b'
  (rowMoves.zip colMoves).foldl
    (fun acc d =>
      let er := r + d.1
      let ec := c + d.2
      if 0 ≤ er ∧ er < 8 ∧ 0 ≤ ec ∧ ec < 8 then
        if (bGet board er ec).c0 ≠ allyC then
          let wK1 := if allyC = 'w' then (er, ec) else wKLoc
          let bK1 := if allyC = 'w' then bKLoc else (er, ec)
          let res := checkForPinsAndChecks board whiteToMove wK1 bK1
          if ¬res.1 then acc ++ [mkMove r c er ec board false false false] else acc
        else acc
      else acc) []

/-- Embeds `GameState.get_all_possible_moves`: row-major sweep dispatching on the
piece kind, threading the mutable `self.pins` list. -/
def getAllPossibleMoves (board : Board) (whiteToMove : Bool)
    (ep : Option (Int × Int)) (wKLoc bKLoc : Int × Int) (pins : List Pin) :
    List Pin × List MoveG :=
  (List.range 8).foldl
    (fun accR (row : Nat) =>
      (List.range 8).foldl
        (fun acc (col : Nat) =>
          let (pins, moves) := acc
          let r := Int.ofNat row
          let c := Int.ofNat col
          let sq := bGet board r c
          if (sq.c0 = 'w' ∧ whiteToMove) ∨ (sq.c0 = 'b' ∧ ¬whiteToMove) then
            if sq.c1 = 'p' then
              let x := getPawnMove board whiteToMove ep pins r c
              (x.1, moves ++ x.2)
            else if sq.c1 = 'R' then
              let x := getRookMove board whiteToMove pins r c
              (x.1, moves ++ x.2)
            else if sq.c1 = 'N' then
              let x := getKnightMove board whiteToMove pins r c
              (x.1, moves ++ x.2)
            else if sq.c1 = 'B' then
              let x := getBishopMove board whiteToMove pins r c
              (x.1, moves ++ x.2)
            else if sq.c1 = 'Q' then
              let x := getQueenMove board whiteToMove pins r c
              (x.1, moves ++ x.2)
            else if sq.c1 = 'K' then
              (pins, moves ++ getKingMove board whiteToMove wKLoc bKLoc r c)
            else acc
          else acc)
        accR)
    (pins, [])

/-- Embeds `GameState.square_under_attack`: flips the side to move, generates all of
the opponent's moves and looks for one that ends on `(row, col)`. -/
def squareUnderAttack (board : Board) (whiteToMove : Bool)
    (ep : Option (Int × Int)) (wKLoc bKLoc : Int × Int) (pins : List Pin)
    (row col : Int) : List Pin × Bool :=
  let x := getAllPossibleMoves board (!whiteToMove) ep wKLoc bKLoc pins
  (x.1, x.2.any (fun m => m.end_row = row && m.end_col = col))

/-- Embeds `GameState.get_kingside_castle_moves`. -/
def getKingsideCastleMoves (board : Board) (whiteToMove : Bool)
    (ep : Option (Int × Int)) (wKLoc bKLoc : Int × Int) (pins : List Pin)
    (row col : Int) : List Pin × List MoveG :=
  if bGet board row (col + 1) = sqE ∧ bGet board row (col + 2) = sqE then
    let a1 := squareUnderAttack board whiteToMove ep wKLoc bKLoc pins row (col + 1)
    if ¬a1.2 then
      let a2 := squareUnderAttack board whiteToMove ep wKLoc bKLoc a1.1 row (col + 2)
      if ¬a2.2 then (a2.1, [mkMove row col row (col + 2) board false false true])
      else (a2.1, [])
    else (a1.1, [])
  else (pins, [])

/-- Embeds `GameState.get_queenside_castle_moves`. -/
def getQueensideCastleMoves (board : Board) (whiteToMove : Bool)
    (ep : Option (Int × Int)) (wKLoc bKLoc : Int × Int) (pins : List Pin)
    (row col : Int) : List Pin × List MoveG :=
  if bGet board row (col - 1) = sqE ∧ bGet board row (col - 2) = sqE ∧
      bGet board row (col - 3) = sqE then
    let a1 := squareUnderAttack board whiteToMove ep wKLoc bKLoc pins row (col - 1)
    if ¬a1.2 then
      let a2 := squareUnderAttack board whiteToMove ep wKLoc bKLoc a1.1 row (col - 2)
      if ¬a2.2 then (a2.1, [mkMove row col row (col - 2) board false false true])
      else (a2.1, [])
    else (a1.1, [])
  else (pins, [])

/-- Embeds `GameState.get_castle_moves`. -/
def getCastleMoves (board : Board) (whiteToMove : Bool) (ep : Option (Int × Int))
    (wKLoc bKLoc : Int × Int) (cr : CastleRights) (pins : List Pin)
    (row col : Int) : List Pin × List MoveG :=
  let a := squareUnderAttack board whiteToMove ep wKLoc bKLoc pins row col
  if a.2 then (a.1, [])
  else
    let ks :=
      if (whiteToMove ∧ cr.wks) ∨ (¬whiteToMove ∧ cr.bks) then
        getKingsideCastleMoves board whiteToMove ep wKLoc bKLoc a.1 row col
      else (a.1, ([] : List MoveG))
    let qs :=
      if (whiteToMove ∧ cr.wqs) ∨ (¬whiteToMove ∧ cr.bqs) then
        getQueensideCastleMoves board whiteToMove ep wKLoc bKLoc ks.1 row col
      else (ks.1, ([] : List MoveG))
    (qs.1, ks.2 ++ qs.2)

/-- A move as stored on the `move_log`: the move itself plus the undo
information that `make_move` writes onto the Move object
(`promoted_to`, `castle_rights_before`, `en_passant_before`). -/
structure LMove where
  m : MoveG
  promoted_to : Option Char
  castle_rights_before : Option CastleRights
  en_passant_before : Option (Int × Int)
deriving DecidableEq, Repr

/-- The GameState attributes touched by the embedded methods.  The empty
tuple `()` that the source uses for "no en-passant square" is `none`.
Fields that only serve the UI (`sq_selected`, `player_clicks`, `move_made`,
`animate_move`, `game_over`, `turn_num`) and the derived cache `hash_board`
are omitted; no embedded method reads them. -/
structure GState where
  board : Board
  white_to_move : Bool
  move_log : List LMove
  white_king_location : Int × Int
  black_king_location : Int × Int
  enPassant_possible : Option (Int × Int)
  enPassant_possible_log : List (Option (Int × Int))
  current_castling_rights : CastleRights
  castle_rights_log : List CastleRights
  pins : List Pin
  checks : List Pin
  promotion_piece : Char
  ai_promotion_piece : Char
  player_promote : Bool
  in_check : Bool
  checkmate : Bool
  stalemate : Bool
deriving DecidableEq, Repr

/-- The initial board of `GameState.__init__`. -/
def initialBoard : Board :=
  [[bR, bN, bB, bQ, bK, bB, bN, bR],
   [bp, bp, bp, bp, bp, bp, bp, bp],
   [sqE, sqE, sqE, sqE, sqE, sqE, sqE, sqE],
   [sqE, sqE, sqE, sqE, sqE, sqE, sqE, sqE],
   [sqE, sqE, sqE, sqE, sqE, sqE, sqE, sqE],
   [sqE, sqE, sqE, sqE, sqE, sqE, sqE, sqE],
   [wp, wp, wp, wp, wp, wp, wp, wp],
   [wR, wN, wB, wQ, wK, wB, wN, wR]]

/-- Embeds `GameState.__init__`. -/
def initialGState : GState :=
  { board := initialBoard
    white_to_move := true
    move_log := []
    white_king_location := (7, 4)
    black_king_location := (0, 4)
    enPassant_possible := none
    enPassant_possible_log := [none]
    current_castling_rights := ⟨true, true, true, true⟩
    castle_rights_log := [⟨true, true, true, true⟩]
    pins := []
    checks := []
    promotion_piece := 'Q'
    ai_promotion_piece := 'Q'
    player_promote := false
    in_check := false
    checkmate := false
    stalemate := false }

/-- Python `list.remove` over a move list; `Move.__eq__` (which ignores the
captured piece) decides equality, as in the source. -/
def pyRemoveMove : List MoveG → MoveG → List MoveG
  | [], _ => []
  | q :: rest, m => if q.srcEq m then rest else q :: pyRemoveMove rest m

/-- The `valid_squares` ray of `get_valid_moves`: squares from the king
towards the checking piece, ending at the checker's square. -/
def buildValidSquares (kr kc : Int) (check : Pin) : List (Int × Int) :=
  go 7 1 []
where
  go : Nat → Int → List (Int × Int) → List (Int × Int)
  | 0, _, acc => acc
  | n+1, i, acc =>
    let vs := (kr + check.2.2.1 * i, kc + check.2.2.2 * i)
    let acc1 := acc ++ [vs]
    if vs.1 = check.1 ∧ vs.2 = check.2.1 then acc1 else go n (i+1) acc1

/-- The backwards removal loop of `get_valid_moves`: walk the indices from
`len(moves)-1` down to `0`; a non-king move whose destination is not a valid
square is removed with `list.remove` (removals happen at the current index,
so lower indices are unaffected). -/
def filterChecksLoop (moves : List MoveG) (validSquares : List (Int × Int)) :
    List MoveG :=
  go moves moves.length
where
  go (ms : List MoveG) : Nat → List MoveG
  | 0 => ms
  | i+1 =>
    let m := ms.getD i ⟨0, 0, 0, 0, sqE, sqE, false, false, false⟩
    let ms1 :=
      if m.piece_moved.c1 ≠ 'K' ∧ ¬(validSquares.contains (m.end_row, m.end_col)) then
        pyRemoveMove ms m
      else ms
    go ms1 i

/-- The generation phase of `GameState.get_valid_moves`: computes
`(in_check, checks)` together with the final `pins` list and the move list
(everything up to the checkmate/stalemate bookkeeping). -/
def gvmCore (s : GState) : (Bool × List Pin) × List Pin × List MoveG :=
  let pcc := checkForPinsAndChecks s.board s.white_to_move
    s.white_king_location s.black_king_location
  let inChk := pcc.1
  let pins0 := pcc.2.1
  let checks := pcc.2.2
  let kr := if s.white_to_move then s.white_king_location.1 else s.black_king_location.1
  let kc := if s.white_to_move then s.white_king_location.2 else s.black_king_location.2
  let gen : List Pin × List MoveG :=
    if inChk then
      if checks.length = 1 then
        let x := getAllPossibleMoves s.board s.white_to_move s.enPassant_possible
          s.white_king_location s.black_king_location pins0
        let check := checks.getD 0 (0, 0, 0, 0)
        let checkRow := check.1
        let checkCol := check.2.1
        let pieceChecking := bGet s.board checkRow checkCol
        let validSquares :=
          if pieceChecking.c1 = 'N' then [(checkRow, checkCol)]
          else buildValidSquares kr kc check
        (x.1, filterChecksLoop x.2 validSquares)
      else
        (pins0, getKingMove s.board s.white_to_move s.white_king_location
          s.black_king_location kr kc)
    else
      getAllPossibleMoves s.board s.white_to_move s.enPassant_possible
        s.white_king_location s.black_king_location pins0
  let cast : List Pin × List MoveG :=
    if ¬inChk then
      getCastleMoves s.board s.white_to_move s.enPassant_possible
        s.white_king_location s.black_king_location s.current_castling_rights
        gen.1 kr kc
    else (gen.1, [])
  ((inChk, checks), cast.1, gen.2 ++ cast.2)

/-- Embeds `GameState.get_valid_moves`: runs the generation phase, assigns the
`in_check`, `pins` and `checks` fields, and sets the `checkmate` /
`stalemate` flags exactly as the tail of the method does. -/
def getValidMoves (s : GState) : GState × List MoveG :=
  let core := gvmCore s
  let inChk := core.1.1
  let checks := core.1.2
  let pinsF := core.2.1
  let moves := core.2.2
  let s2 := { s with in_check := inChk, pins := pinsF, checks := checks }
  if moves.length = 0 then
    if inChk then ({ s2 with checkmate := true }, moves)
    else ({ s2 with stalemate := true }, moves)
  else ({ s2 with checkmate := false, stalemate := false }, moves)

/-- Embeds `GameState.handle_king_move`. -/
def handleKingMove (s : GState) (m : MoveG) : GState :=
  if m.piece_moved = wK then { s with white_king_location := (m.end_row, m.end_col) }
  else if m.piece_moved = bK then { s with black_king_location := (m.end_row, m.end_col) }
  else s

/-- Embeds `GameState.handle_en_passant`: sets or clears the en-passant target and,
for an en-passant capture, removes the captured pawn. -/
def handleEnPassant (s : GState) (m : MoveG) : GState :=
  let s1 :=
    if m.piece_moved.c1 = 'p' ∧ (m.start_row - m.end_row).natAbs = 2 then
      { s with enPassant_possible := some ((m.end_row + m.start_row) / 2, m.end_col) }
    else { s with enPassant_possible := none }
  if m.enPassant then
    let capRow := if m.piece_moved.c0 = 'w' then m.end_row + 1 else m.end_row - 1
    { s1 with board := bSet s1.board capRow m.end_col sqE }
  else s1

/-- Embeds `GameState.handle_pawn_promotion`: also returns the `promoted_to` value
written onto the move object. -/
def handlePawnPromotion (s : GState) (m : MoveG) : GState × Option Char :=
  if m.pawn_promotion then
    let promoted := if s.player_promote then s.promotion_piece else s.ai_promotion_piece
    ({ s with board := bSet s.board m.end_row m.end_col ⟨m.piece_moved.c0, promoted⟩,
              player_promote := false }, some promoted)
  else (s, none)

/-- Embeds `GameState.handle_castling`: moves the rook next to the king. -/
def handleCastling (s : GState) (m : MoveG) : GState :=
  if m.is_castle_move then
    if m.end_col - m.start_col = 2 then
      let rook := bGet s.board m.end_row (m.end_col + 1)
      let b1 := bSet s.board m.end_row (m.end_col - 1) rook
      { s with board := bSet b1 m.end_row (m.end_col + 1) sqE }
    else
      let rook := bGet s.board m.end_row (m.end_col - 2)
      let b1 := bSet s.board m.end_row (m.end_col + 1) rook
      { s with board := bSet b1 m.end_row (m.end_col - 2) sqE }
  else s

/-- Embeds `GameState.update_castle_rights`. -/
def updateCastleRights (s : GState) (m : MoveG) : GState :=
  let cr := s.current_castling_rights
  let cr :=
    if m.piece_moved = wK then { cr with wqs := false, wks := false }
    else if m.piece_moved = bK then { cr with bqs := false, bks := false }
    else if m.piece_moved = wR then
      if m.start_row = 7 then
        if m.start_col = 0 then { cr with wqs := false }
        else if m.start_col = 7 then { cr with wks := false }
        else cr
      else cr
    else if m.piece_moved = bR then
      if m.start_row = 0 then
        if m.start_col = 0 then { cr with bqs := false }
        else if m.start_col = 7 then { cr with bks := false }
        else cr
      else cr
    else cr
  let cr :=
    if m.piece_captured = wR then
      if m.end_col = 0 ∧ m.end_row = 7 then { cr with wqs := false }
      else if m.end_col = 7 ∧ m.end_row = 7 then { cr with wks := false }
      else cr
    else if m.piece_captured = bR then
      if m.end_col = 0 ∧ m.end_row = 0 then { cr with bqs := false }
      else if m.end_col = 7 ∧ m.end_row = 0 then { cr with bks := false }
      else cr
    else cr
  { s with current_castling_rights := cr }

/-- Embeds `GameState.make_move`: the pre-move castling rights and en-passant target
are recorded on the logged move before the state changes, exactly as the
source does via `set_castle_rights_before` / `set_en_passant_before`. -/
def makeMoveGS (s : GState) (m : MoveG) : GState :=
  let crb := s.current_castling_rights
  let epb := s.enPassant_possible
  let b1 := bSet s.board m.end_row m.end_col m.piece_moved
  let b2 := bSet b1 m.start_row m.start_col sqE
  let s1 := { s with board := b2, white_to_move := !s.white_to_move }
  let s2 := handleKingMove s1 m
  let s3 := handleEnPassant s2 m
  let p4 := handlePawnPromotion s3 m
  let s5 := handleCastling p4.1 m
  let s6 := updateCastleRights s5 m
  { s6 with
    move_log := s6.move_log ++ [⟨m, p4.2, some crb, epb⟩],
    castle_rights_log := s6.castle_rights_log ++ [s6.current_castling_rights],
    enPassant_possible_log := s6.enPassant_possible_log ++ [s6.enPassant_possible] }

/-- Embeds `GameState.undo_king_move`. -/
def undoKingMove (s : GState) (m : MoveG) : GState :=
  if m.piece_moved = wK then { s with white_king_location := (m.start_row, m.start_col) }
  else if m.piece_moved = bK then { s with black_king_location := (m.start_row, m.start_col) }
  else s

/-- Embeds `GameState.undo_en_passant`: puts the captured pawn back on its square. -/
def undoEnPassantH (s : GState) (m : MoveG) : GState :=
  if m.enPassant then
    let capRow := if m.piece_moved.c0 = 'w' then m.end_row + 1 else m.end_row - 1
    let capPawn := if m.piece_moved.c0 = 'w' then bp else wp
    { s with board := bSet s.board capRow m.end_col capPawn }
  else s

/-- Embeds `GameState.undo_castling`. -/
def undoCastling (s : GState) (m : MoveG) : GState :=
  if m.is_castle_move then
    if m.end_col - m.start_col = 2 then
      let rook := bGet s.board m.end_row (m.end_col - 1)
      let b1 := bSet s.board m.end_row (m.end_col + 1) rook
      { s with board := bSet b1 m.end_row (m.end_col - 1) sqE }
    else
      let rook := bGet s.board m.end_row (m.end_col + 1)
      let b1 := bSet s.board m.end_row (m.end_col - 2) rook
      { s with board := bSet b1 m.end_row (m.end_col + 1) sqE }
  else s

/-- Embeds `GameState.undo_move`.  Note that both branches of the promotion
conditional in the source assign `move.piece_captured` to the end square;
for an en-passant move `piece_captured` is the opposing pawn, which the
source therefore writes onto the (pre-move empty) en-passant target square.
The `hasattr(move, 'en_passant_before')` test is always true because
`Move.__init__` sets the attribute, and `castle_rights_before` is always a
(truthy) CastleRights object for a logged move, so the log-popping fallback
branches are unreachable for moves that went through `make_move`; they are
embedded nonetheless. -/
def undoMoveGS (s : GState) : GState × Bool :=
  match s.move_log.getLast? with
  | none => (s, false)
  | some lm =>
    let m := lm.m
    let s0 := { s with move_log := s.move_log.dropLast }
    let b1 := bSet s0.board m.start_row m.start_col m.piece_moved
    let b2 := bSet b1 m.end_row m.end_col m.piece_captured
    let s1 := { s0 with board := b2, white_to_move := !s0.white_to_move }
    let s2 := undoKingMove s1 m
    let s3 := undoEnPassantH s2 m
    let s4 := undoCastling s3 m
    let s5 :=
      match lm.castle_rights_before with
      | some cr => { s4 with current_castling_rights := cr }
      | none =>
        if 1 < s4.castle_rights_log.length then
          let log1 := s4.castle_rights_log.dropLast
          { s4 with castle_rights_log := log1,
                    current_castling_rights := log1.getLastD ⟨true, true, true, true⟩ }
        else s4
    let s6 := { s5 with enPassant_possible := lm.en_passant_before }
    ({ s6 with checkmate := false, stalemate := false }, true)

/-! The AI of `ai/advanced_ai.py`. -/

/-- Embeds `MoveType`. -/
inductive MType where
  | ALL
  | CAPTURES
  | QUIET
deriving DecidableEq, Repr

/-- The lightweight `Move` NamedTuple of the AI.  The empty-string default of
`captured` is `none`; a real capture stores the two-character tag of the
captured piece.  `special_flag` is the literal string of the source
(`""`, `"promotion"`, `"castle"`, `"en_passant"`). -/
structure MoveAI where
  from_row : Int
  from_col : Int
  to_row : Int
  to_col : Int
  piece : Sq
  captured : Option Sq
  special_flag : String
deriving DecidableEq, Repr

/-- Embeds `MoveGenerator.is_valid_square`. -/
def isValidSquare (row col : Int) : Bool :=
  0 ≤ row && row < 8 && 0 ≤ col && col < 8

/-- Embeds `MoveGenerator._get_pawn_moves`.  Note it consults only the board: it has
no en-passant information, and it never sets `special_flag`. -/
def aiPawnMoves (board : Board) (row col : Int) (color : Char) (mt : MType) :
    List MoveAI :=
  let direction : Int := if color = 'w' then -1 else 1
  let startRow : Int := if color = 'w' then 6 else 1
  let fwd :=
    if mt = MType.ALL ∨ mt = MType.QUIET then
      let newRow := row + direction
      if isValidSquare newRow col ∧ bGet board newRow col = sqE then
        let ms := [MoveAI.mk row col newRow col ⟨color, 'p'⟩ none ""]
        if row = startRow ∧ bGet board (newRow + direction) col = sqE then
          ms ++ [MoveAI.mk row col (newRow + direction) col ⟨color, 'p'⟩ none ""]
        else ms
      else []
    else []
  let caps :=
    if mt = MType.ALL ∨ mt = MType.CAPTURES then
      ([-1, 1] : List Int).foldl
        (fun acc dc =>
          let newRow := row + direction
          let newCol := col + dc
          if isValidSquare newRow newCol ∧ bGet board newRow newCol ≠ sqE ∧
              (bGet board newRow newCol).c0 ≠ color then
            acc ++ [MoveAI.mk row col newRow newCol ⟨color, 'p'⟩
              (some (bGet board newRow newCol)) ""]
          else acc) []
    else []
  fwd ++ caps

/-- The ray loop of `MoveGenerator._get_sliding_moves` for one direction. -/
def aiSlideRay (board : Board) (piece : Sq) (color : Char) (mt : MType)
    (row col dr dc : Int) : List MoveAI :=
  go 7 1
where
  go : Nat → Int → List MoveAI
  | 0, _ => []
  | n+1, i =>
    let newRow := row + i * dr
    let newCol := col + i * dc
    if isValidSquare newRow newCol then
      let target := bGet board newRow newCol
      if target = sqE then
        (if mt = MType.ALL ∨ mt = MType.QUIET then
          [MoveAI.mk row col newRow newCol piece none ""] else []) ++ go n (i+1)
      else if target.c0 ≠ color then
        if mt = MType.ALL ∨ mt = MType.CAPTURES then
          [MoveAI.mk row col newRow newCol piece (some target) ""]
        else []
      else []
    else []

/-- Embeds `MoveGenerator._get_sliding_moves`. -/
def aiSlidingMoves (board : Board) (row col : Int) (color : Char)
    (dirs : List (Int × Int)) (mt : MType) : List MoveAI :=
  let piece := bGet board row col
  dirs.foldl (fun acc d => acc ++ aiSlideRay board piece color mt row col d.1 d.2) []

/-- Embeds `MoveGenerator._get_knight_moves`. -/
def aiKnightMoves (board : Board) (row col : Int) (color : Char) (mt : MType) :
    List MoveAI :=
  let piece := bGet board row col
  knightOffsets.foldl
    (fun acc d =>
      let newRow := row + d.1
      let newCol := col + d.2
      if isValidSquare newRow newCol then
        let target := bGet board newRow newCol
        if target = sqE then
          if mt = MType.ALL ∨ mt = MType.QUIET then
            acc ++ [MoveAI.mk row col newRow newCol piece none ""]
          else acc
        else if target.c0 ≠ color then
          if mt = MType.ALL ∨ mt = MType.CAPTURES then
            acc ++ [MoveAI.mk row col newRow newCol piece (some target) ""]
          else acc
        else acc
      else acc) []

/-- Embeds `MoveGenerator._get_king_moves`. -/
def aiKingMoves (board : Board) (row col : Int) (color : Char) (mt : MType) :
    List MoveAI :=
  let piece := bGet board row col
  ([(0, 1), (0, -1), (1, 0), (-1, 0), (1, 1), (1, -1), (-1, 1), (-1, -1)] :
      List (Int × Int)).foldl
    (fun acc d =>
      let newRow := row + d.1
      let newCol := col + d.2
      if isValidSquare newRow newCol then
        let target := bGet board newRow newCol
        if target = sqE then
          if mt = MType.ALL ∨ mt = MType.QUIET then
            acc ++ [MoveAI.mk row col newRow newCol piece none ""]
          else acc
        else if target.c0 ≠ color then
          if mt = MType.ALL ∨ mt = MType.CAPTURES then
            acc ++ [MoveAI.mk row col newRow newCol piece (some target) ""]
          else acc
        else acc
      else acc) []

/-- Embeds `MoveGenerator._get_piece_moves`: dispatch on `piece[1].lower()`. -/
def aiPieceMoves (board : Board) (row col : Int) (piece : Sq) (mt : MType) :
    List MoveAI :=
  let t := piece.c1.toLower
  let color := piece.c0
  if t = 'p' then aiPawnMoves board row col color mt
  else if t = 'r' then
    aiSlidingMoves board row col color [(0, 1), (0, -1), (1, 0), (-1, 0)] mt
  else if t = 'n' then aiKnightMoves board row col color mt
  else if t = 'b' then
    aiSlidingMoves board row col color [(1, 1), (1, -1), (-1, 1), (-1, -1)] mt
  else if t = 'q' then
    aiSlidingMoves board row col color
      [(0, 1), (0, -1), (1, 0), (-1, 0), (1, 1), (1, -1), (-1, 1), (-1, -1)] mt
  else if t = 'k' then aiKingMoves board row col color mt
  else []

/-- Embeds `MoveGenerator.generate_moves`. -/
def aiGenerateMoves (board : Board) (isWhiteTurn : Bool) (mt : MType) :
    List MoveAI :=
  let color : Char := if isWhiteTurn then 'w' else 'b'
  (List.range 8).foldl
    (fun accR (row : Nat) =>
      (List.range 8).foldl
        (fun acc (col : Nat) =>
          let r := Int.ofNat row
          let c := Int.ofNat col
          let piece := bGet board r c
          if piece ≠ sqE ∧ piece.c0 = color then
            acc ++ aiPieceMoves board r c piece mt
          else acc)
        accR)
    []

/-- Embeds `TranspositionEntry`. -/
structure TranspositionEntry where
  score : Int
  depth : Int
  flag : Nat
  best_move : Option MoveAI
  age : Nat
deriving DecidableEq, Repr

/-- The flag constants of `TranspositionTable`. -/
def ttEXACT : Nat := 0
def ttLOWER : Nat := 1
def ttUPPER : Nat := 2

/-- Lookup in an insertion-ordered association list (a Python dict whose keys
are the first components). -/
def alookup [DecidableEq κ] : List (κ × ν) → κ → Option ν
  | [], _ => none
  | (k, v) :: rest, key => if k = key then some v else alookup rest key

/-- Python dict assignment `d[key] = v`: update in place if the key exists,
otherwise append. -/
def aset [DecidableEq κ] : List (κ × ν) → κ → ν → List (κ × ν)
  | [], key, v => [(key, v)]
  | (k, w) :: rest, key, v =>
    if k = key then (k, v) :: rest else (k, w) :: aset rest key v

/-- The state of a `TranspositionTable`. -/
structure TTData where
  size : Nat
  table : List (Nat × TranspositionEntry)
  generation : Nat
  hits : Nat
  misses : Nat
deriving DecidableEq, Repr

/-- Embeds `TranspositionTable.__init__`. -/
def ttInit (size_mb : Nat) : TTData :=
  ⟨size_mb * 1024 * 1024 / 32, [], 0, 0, 0⟩

/-- Embeds `TranspositionTable.clear`. -/
def ttClear (t : TTData) : TTData :=
  { t with table := [], generation := 0, hits := 0, misses := 0 }

/-- Embeds `TranspositionTable.new_search`. -/
def ttNewSearch (t : TTData) : TTData :=
  { t with generation := t.generation + 1 }

/-- Embeds `TranspositionTable.store`: on an existing key, replace if the incoming
depth is at least the stored depth or `abs(generation - age) > 2`; on a new
key, insert only while under capacity. -/
def ttStore (t : TTData) (key : Nat) (depth score : Int) (flag : Nat)
    (bm : Option MoveAI) : TTData :=
  match alookup t.table key with
  | some old =>
    if old.depth ≤ depth ∨ 2 < ((t.generation : Int) - (old.age : Int)).natAbs then
      { t with table := aset t.table key ⟨score, depth, flag, bm, t.generation⟩ }
    else t
  | none =>
    if t.table.length < t.size then
      { t with table := aset t.table key ⟨score, depth, flag, bm, t.generation⟩ }
    else t

/-- Embeds `TranspositionTable.probe`: returns the updated table (hit/miss counters)
and the pair `(score | none, best_move | none)`. -/
def ttProbe (t : TTData) (key : Nat) (depth alpha beta : Int) :
    TTData × Option Int × Option MoveAI :=
  match alookup t.table key with
  | none => ({ t with misses := t.misses + 1 }, none, none)
  | some e =>
    let t1 := { t with hits := t.hits + 1 }
    if depth ≤ e.depth then
      if e.flag = ttEXACT then (t1, some e.score, e.best_move)
      else if e.flag = ttLOWER ∧ beta ≤ e.score then (t1, some e.score, e.best_move)
      else if e.flag = ttUPPER ∧ e.score ≤ alpha then (t1, some e.score, e.best_move)
      else (t1, none, e.best_move)
    else (t1, none, e.best_move)

/-- The XOR accumulation of `SearchEngine._get_position_key` before the final
mask: one hash contribution per occupied square, then the side-to-move bit.
Python's `hash((piece, row, col))` depends on the process hash seed, so it is
embedded as the function parameter `hashF`. -/
def rawPositionKey (hashF : Sq → Nat → Nat → Nat) (board : Board)
    (isWhiteTurn : Bool) : Nat :=
  let key := (List.range 8).foldl
    (fun kR (row : Nat) =>
      (List.range 8).foldl
        (fun k (col : Nat) =>
          let piece := bGet board (Int.ofNat row) (Int.ofNat col)
          if piece ≠ sqE then k ^^^ hashF piece row col else k)
        kR)
    0
  if isWhiteTurn then key ^^^ 1 else key

/-- Embeds `SearchEngine._get_position_key`: the accumulated XOR masked with
`0x7FFFFFFF`. -/
def getPositionKey (hashF : Sq → Nat → Nat → Nat) (board : Board)
    (isWhiteTurn : Bool) : Nat :=
  rawPositionKey hashF board isWhiteTurn &&& 0x7FFFFFFF

/-- Modelled from the spec (and the claim): the fingerprint the specification
describes, reduced to the 63-bit range by keeping the low 63 bits. -/
def specPositionKey (hashF : Sq → Nat → Nat → Nat) (board : Board)
    (isWhiteTurn : Bool) : Nat :=
  rawPositionKey hashF board isWhiteTurn &&& 0x7FFFFFFFFFFFFFFF

/-- The default `piece_values` dictionary of `AIConfig` with its `.get(_, 0)`
lookup. -/
def pieceValue (c : Char) : Int :=
  if c = 'K' then 0
  else if c = 'Q' then 900
  else if c = 'R' then 500
  else if c = 'B' then 330
  else if c = 'N' then 320
  else if c = 'p' then 100
  else 0

/-- Embeds `BoardAnalyzer.BoardInfo`. -/
structure BoardInfo where
  material_balance : Int
  white_king_pos : Option (Int × Int)
  black_king_pos : Option (Int × Int)
  white_pawns : List (Int × Int)
  black_pawns : List (Int × Int)
  piece_positions : List (Sq × List (Int × Int))
deriving Repr

/-- Append a position to the `defaultdict(list)` entry of a piece. -/
def ppAdd (pp : List (Sq × List (Int × Int))) (piece : Sq) (pos : Int × Int) :
    List (Sq × List (Int × Int)) :=
  match alookup pp piece with
  | some l => aset pp piece (l ++ [pos])
  | none => pp ++ [(piece, [pos])]

/-- Embeds `BoardAnalyzer.analyze_board`: one row-major sweep. -/
def analyzeBoard (board : Board) : BoardInfo :=
  (List.range 8).foldl
    (fun accR (row : Nat) =>
      (List.range 8).foldl
        (fun info (col : Nat) =>
          let r := Int.ofNat row
          let c := Int.ofNat col
          let piece := bGet board r c
          if piece = sqE then info
          else
            let value := pieceValue piece.c1
            let info := { info with material_balance :=
              if piece.c0 = 'w' then info.material_balance + value
              else info.material_balance - value }
            let info :=
              if piece = wK then { info with white_king_pos := some (r, c) }
              else if piece = bK then { info with black_king_pos := some (r, c) }
              else if piece = wp then { info with white_pawns := info.white_pawns ++ [(r, c)] }
              else if piece = bp then { info with black_pawns := info.black_pawns ++ [(r, c)] }
              else info
            { info with piece_positions := ppAdd info.piece_positions piece (r, c) })
        accR)
    ⟨0, none, none, [], [], []⟩

/-- The pawn piece-square table of `Evaluator._init_piece_square_tables`. -/
def pawnTable : List (List Int) :=
  [[0, 0, 0, 0, 0, 0, 0, 0],
   [50, 50, 50, 50, 50, 50, 50, 50],
   [10, 10, 20, 30, 30, 20, 10, 10],
   [5, 5, 10, 27, 27, 10, 5, 5],
   [0, 0, 0, 25, 25, 0, 0, 0],
   [5, -5, -10, 0, 0, -10, -5, 5],
   [5, 10, 10, -25, -25, 10, 10, 5],
   [0, 0, 0, 0, 0, 0, 0, 0]]

/-- The knight piece-square table. -/
def knightTable : List (List Int) :=
  [[-50, -40, -30, -30, -30, -30, -40, -50],
   [-40, -20, 0, 0, 0, 0, -20, -40],
   [-30, 0, 10, 15, 15, 10, 0, -30],
   [-30, 5, 15, 20, 20, 15, 5, -30],
   [-30, 0, 15, 20, 20, 15, 0, -30],
   [-30, 5, 10, 15, 15, 10, 5, -30],
   [-40, -20, 0, 5, 5, 0, -20, -40],
   [-50, -40, -30, -30, -30, -30, -40, -50]]

/-- The bishop piece-square table. -/
def bishopTable : List (List Int) :=
  [[-20, -10, -10, -10, -10, -10, -10, -20],
   [-10, 0, 0, 0, 0, 0, 0, -10],
   [-10, 0, 5, 10, 10, 5, 0, -10],
   [-10, 5, 5, 10, 10, 5, 5, -10],
   [-10, 0, 10, 10, 10, 10, 0, -10],
   [-10, 10, 10, 10, 10, 10, 10, -10],
   [-10, 5, 0, 0, 0, 0, 5, -10],
   [-20, -10, -40, -10, -10, -40, -10, -20]]

/-- The `piece_square_tables` dictionary lookup.  The dictionary keys are
`'p'`, `'N'`, `'B'` while `_evaluate_piece_square_bonus` looks up
`piece[1].lower()`, so only the pawn table is ever found; the embedding
reproduces this lookup faithfully. -/
def pieceSquareTable (c : Char) : Option (List (List Int)) :=
  if c = 'p' then some pawnTable
  else if c = 'N' then some knightTable
  else if c = 'B' then some bishopTable
  else none

/-- Embeds `Evaluator._evaluate_piece_square_bonus`. -/
def evalPieceSquareBonus (info : BoardInfo) : Int :=
  info.piece_positions.foldl
    (fun score pe =>
      let piece := pe.1
      let positions := pe.2
      if positions.length = 0 then score
      else
        let color := piece.c0
        match pieceSquareTable piece.c1.toLower with
        | none => score
        | some table =>
          positions.foldl
            (fun sc rc =>
              let evalRow := if color = 'w' then rc.1 else 7 - rc.1
              let bonus := pyIdx (pyIdx table [] evalRow) 0 rc.2
              if color = 'w' then sc + bonus else sc - bonus)
            score)
    0

/-- Embeds `Evaluator._evaluate_pawn_shield`. -/
def evalPawnShield (board : Board) (kingPos : Int × Int) (color : Char) : Int :=
  let direction : Int := if color = 'w' then -1 else 1
  ([-1, 0, 1] : List Int).foldl
    (fun shield dc =>
      let shieldCol := kingPos.2 + dc
      if 0 ≤ shieldCol ∧ shieldCol < 8 then
        let shieldRow := kingPos.1 + direction
        if 0 ≤ shieldRow ∧ shieldRow < 8 then
          if bGet board shieldRow shieldCol = ⟨color, 'p'⟩ then shield + 10
          else shield - 15
        else shield
      else shield)
    0

/-- Embeds `Evaluator._evaluate_king_safety`. -/
def evalKingSafety (board : Board) (info : BoardInfo) : Int :=
  let s1 := match info.white_king_pos with
    | some kp => evalPawnShield board kp 'w'
    | none => 0
  let s2 := match info.black_king_pos with
    | some kp => evalPawnShield board kp 'b'
    | none => 0
  s1 - s2

/-- The `while 0 <= check_row < 8` scan of `Evaluator._is_passed_pawn` for
one column. -/
def passedScan (board : Board) (enemyC : Char) (direction : Int)
    (checkCol : Int) : Nat → Int → Bool
  | 0, _ => true
  | n+1, checkRow =>
    if 0 ≤ checkRow ∧ checkRow < 8 then
      if bGet board checkRow checkCol = ⟨enemyC, 'p'⟩ then false
      else passedScan board enemyC direction checkCol n (checkRow + direction)
    else true

/-- Embeds `Evaluator._is_passed_pawn`. -/
def isPassedPawn (board : Board) (row col : Int) (color : Char) : Bool :=
  let direction : Int := if color = 'w' then -1 else 1
  let enemyC : Char := if color = 'w' then 'b' else 'w'
  ([col - 1, col, col + 1] : List Int).all
    (fun checkCol =>
      if 0 ≤ checkCol ∧ checkCol < 8 then
        passedScan board enemyC direction checkCol 8 (row + direction)
      else true)

/-- Embeds `Evaluator._evaluate_pawn_structure`. -/
def evalPawnStructure (board : Board) (info : BoardInfo) : Int :=
  let whiteFiles := info.white_pawns.map (·.2)
  let blackFiles := info.black_pawns.map (·.2)
  let doubled := (List.range 8).foldl
    (fun score (file : Nat) =>
      let f := Int.ofNat file
      let wc : Int := (whiteFiles.filter (fun x => x = f)).length
      let bc : Int := (blackFiles.filter (fun x => x = f)).length
      let score := if 1 < wc then score - 10 * (wc - 1) else score
      if 1 < bc then score + 10 * (bc - 1) else score)
    0
  let wpassed := info.white_pawns.foldl
    (fun score rc =>
      if isPassedPawn board rc.1 rc.2 'w' then score + (20 + (7 - rc.1) * 5) else score)
    doubled
  info.black_pawns.foldl
    (fun score rc =>
      if isPassedPawn board rc.1 rc.2 'b' then score - (20 + rc.1 * 5) else score)
    wpassed

/-- Embeds `Evaluator._evaluate_mobility`. -/
def evalMobility (board : Board) : Int :=
  let whiteMobility : Int := (aiGenerateMoves board true MType.ALL).length
  let blackMobility : Int := (aiGenerateMoves board false MType.ALL).length
  (whiteMobility - blackMobility) * 2

/-- Embeds `Evaluator.evaluate_position`. -/
def evaluatePosition (board : Board) (isWhiteTurn : Bool) : Int :=
  let info := analyzeBoard board
  let score := info.material_balance
    + evalPieceSquareBonus info
    + evalKingSafety board info
    + evalPawnStructure board info
    + evalMobility board
  if isWhiteTurn then score else -score

/-- The `AIConfig` fields the search consults (the piece values are the fixed
default dictionary, embedded as `pieceValue`; the time limit lives in the
stop oracle below). -/
structure AIConfigL where
  max_depth : Nat
  use_null_move_pruning : Bool
  use_lmr : Bool
  use_killer_moves : Bool
deriving Repr

/-- The mutable search state of a `SearchEngine`: the transposition table,
the node counter, the killer and history tables, the statistics counters, and
`tick`, the number of `_should_stop_search` consultations so far (the handle
through which the stop oracle models the cancel flag and the clock). -/
structure SState where
  tt : TTData
  nodes_searched : Nat
  tick : Nat
  killer_moves : List (Nat × List MoveAI)
  history_scores : List ((Sq × Int) × Int)
  beta_cutoffs : Nat
  first_move_cutoffs : Nat
  null_move_cuts : Nat
  lmr_saves : Nat
deriving Repr

/-- Embeds `SearchEngine._should_stop_search`: reads `cancel_search` and the elapsed
time, both of which are outside the pure state; the oracle `stop`, indexed by
the consultation counter, stands for that environment. -/
def shouldStopSearch (stop : Nat → Bool) (st : SState) : SState × Bool :=
  ({ st with tick := st.tick + 1 }, stop st.tick)

/-- The `self.killer_moves[ply]` read (`defaultdict(list)`). -/
def killersAt (st : SState) (ply : Nat) : List MoveAI :=
  (alookup st.killer_moves ply).getD []

/-- The `self.history_scores[key]` read (`defaultdict(int)`). -/
def historyAt (st : SState) (k : Sq × Int) : Int :=
  (alookup st.history_scores k).getD 0

/-- Embeds `SearchEngine._add_killer_move`. -/
def addKillerMove (st : SState) (move : MoveAI) (ply : Nat) : SState :=
  let ks := killersAt st ply
  if ¬(ks.contains move) then
    let ks1 := move :: ks
    let ks2 := if 2 < ks1.length then ks1.dropLast else ks1
    { st with killer_moves := aset st.killer_moves ply ks2 }
  else st

/-- Embeds `SearchEngine._update_history`: the gravity update
`h + Δ − h·|Δ| // 512` with Python floor division. -/
def updateHistory (st : SState) (move : MoveAI) (depth : Int) (isGood : Bool) :
    SState :=
  let k : Sq × Int := (move.piece, move.to_row * 8 + move.to_col)
  let bonus : Int := if isGood then depth * depth else -(depth * depth)
  let current := historyAt st k
  let updated := current + bonus - Int.fdiv (current * (bonus.natAbs : Int)) 512
  { st with history_scores := aset st.history_scores k updated }

/-- Embeds `SearchEngine._order_moves` (the `board` parameter of the source is
unused there too).  Python's `sort(key=score, reverse=True)` is a stable
descending sort, which `mergeSort` with a greater-or-equal comparison on the
scores reproduces. -/
def orderMoves (st : SState) (useKillers : Bool) (_board : Board)
    (moves : List MoveAI) (ply : Nat) (ttMove : Option MoveAI) : List MoveAI :=
  let scored := moves.map
    (fun move =>
      let score : Int :=
        if ttMove.isSome ∧ ttMove = some move then 10000000
        else if move.captured.isSome then
          let victim := match move.captured with
            | some cSq => pieceValue cSq.c1
            | none => 0
          1000000 + victim * 10 - pieceValue move.piece.c1
        else if useKillers ∧ (killersAt st ply).contains move then
          900000 - (Int.ofNat ((killersAt st ply).indexOf move)) * 1000
        else historyAt st (move.piece, move.to_row * 8 + move.to_col)
      (score, move))
  ((scored.mergeSort (fun a b => b.1 ≤ a.1)).map (·.2))

/-- Embeds `SearchEngine._make_move`: `new_board = [row[:] for row in board]` makes
a fresh copy, and every write below targets that copy; the argument board is
never written. -/
def makeMoveAI (board : Board) (move : MoveAI) : Board :=
  let nb := board
  let nb := bSet nb move.to_row move.to_col move.piece
  let nb := bSet nb move.from_row move.from_col sqE
  if move.special_flag = "promotion" then
    bSet nb move.to_row move.to_col ⟨move.piece.c0, 'Q'⟩
  else if move.special_flag = "en_passant" then
    let capRow := move.to_row + (if move.piece.c0 = 'w' then 1 else -1)
    bSet nb capRow move.to_col sqE
  else if move.special_flag = "castle" then
    if move.from_col < move.to_col then
      let nb1 := bSet nb move.from_row 5 (bGet nb move.from_row 7)
      bSet nb1 move.from_row 7 sqE
    else
      let nb1 := bSet nb move.from_row 3 (bGet nb move.from_row 0)
      bSet nb1 move.from_row 0 sqE
  else nb

/-- The king scan of `SearchEngine._is_king_in_check`: the inner `break`
leaves only the inner loop, so the first column match of the last row that
contains the king wins. -/
def findKingPos (board : Board) (kingPiece : Sq) : Option (Int × Int) :=
  (List.range 8).foldl
    (fun acc (row : Nat) =>
      match (pyIdx board [] (Int.ofNat row)).findIdx? (fun s => s == kingPiece) with
      | some col => some (Int.ofNat row, Int.ofNat col)
      | none => acc)
    none

/-- Embeds `SearchEngine._is_king_in_check`. -/
def isKingInCheckAI (board : Board) (isWhiteTurn : Bool) : Bool :=
  let kingPiece := if isWhiteTurn then wK else bK
  match findKingPos board kingPiece with
  | none => false
  | some kp =>
    (aiGenerateMoves board (!isWhiteTurn) MType.ALL).any
      (fun m => m.to_row = kp.1 && m.to_col = kp.2)

/-- Embeds `SearchEngine._has_non_pawn_pieces`. -/
def hasNonPawnPieces (board : Board) (isWhiteTurn : Bool) : Bool :=
  let color : Char := if isWhiteTurn then 'w' else 'b'
  (List.range 8).any
    (fun row =>
      (List.range 8).any
        (fun col =>
          let piece := bGet board (Int.ofNat row) (Int.ofNat col)
          piece ≠ sqE && piece.c0 = color && piece.c1.toLower ≠ 'k' &&
            piece.c1.toLower ≠ 'p'))

/-- The bound flag computed at the end of `_alpha_beta` (source lines
655-657): `EXACT` when `best_score` lies strictly between `-999999` and
`beta`, otherwise `LOWER_BOUND` when `best_score ≥ beta`, otherwise
`UPPER_BOUND`. -/
def ttFlagOf (bestScore beta : Int) : Nat :=
  if -999999 < bestScore ∧ bestScore < beta then ttEXACT
  else if beta ≤ bestScore then ttLOWER
  else ttUPPER

/-- Modelled from the spec (and the claim): the bound determination the
specification describes, relative to the node's initial `α`. -/
def specBoundFlag (alpha0 beta bestScore : Int) : Nat :=
  if alpha0 < bestScore ∧ bestScore < beta then ttEXACT
  else if beta ≤ bestScore then ttLOWER
  else ttUPPER

/-- Embeds `SearchEngine._quiescence_search`.  Every function that receives the
mutable `board` argument returns its post-call value first; the source never
writes to it (each child position is a fresh copy from `_make_move`), and the
embedding threads it accordingly.  The fuel argument only bounds the
recursion depth (capture chains are finite in the source). -/
def quiescence : Nat → Board → Bool → Int → Int → SState →
    Board × SState × Int
  | 0, board, _, alpha, _, st => (board, st, alpha)
  | fuel+1, board, isWhite, alpha, beta, st =>
    let st1 := { st with nodes_searched := st.nodes_searched + 1 }
    let standPat := evaluatePosition board isWhite
    if beta ≤ standPat then (board, st1, beta)
    else
      let alpha1 := if alpha < standPat then standPat else alpha
      let captures := aiGenerateMoves board isWhite MType.CAPTURES
      let r := captures.foldl
        (fun (acc : SState × Int × Bool) capture =>
          let (stA, al, done) := acc
          if done then acc
          else
            let newBoard := makeMoveAI board capture
            let q := quiescence fuel newBoard (!isWhite) (-beta) (-al) stA
            let score := -q.2.2
            if beta ≤ score then (q.2.1, al, true)
            else if al < score then (q.2.1, score, false)
            else (q.2.1, al, false))
        (st1, alpha1, false)
      (board, r.1, if r.2.2 then beta else r.2.1)

/-- The move loop and table store at the end of `_alpha_beta` (steps 8-9):
orders the moves, searches them through `abRec` (the recursion at the next
fuel level) with late-move reductions, the principal-variation/scout windows
and the beta-cutoff bookkeeping, and stores the resulting bound in the
transposition table. -/
def abSearchMoves (cfg : AIConfigL)
    (abRec : Board → Bool → Int → Int → Int → Nat → SState → Board × SState × Int)
    (posKey : Nat) (moves : List MoveAI) (isWhite : Bool)
    (depth alpha beta : Int) (ply : Nat) (ttMove : Option MoveAI)
    (board4 : Board) (st4 : SState) : Board × SState × Int :=
  let orderedMoves := orderMoves st4 cfg.use_killer_moves board4 moves ply ttMove
  let r := orderedMoves.enum.foldl
    (fun (acc : SState × Int × Int × Nat × Bool) im =>
      let (stA, al, best, ms, done) := acc
      if done then acc
      else
        let i := im.1
        let move := im.2
        let newBoard := makeMoveAI board4 move
        let reduction : Int :=
          if cfg.use_lmr ∧ 3 < i ∧ 2 < depth ∧ 0 < ms ∧
              move.captured = none ∧
              ¬(isKingInCheckAI newBoard (!isWhite)) then
            min (depth - 1) (1 + (depth - 1) * ((Int.ofNat i) - 3) / 20)
          else 0
        let sRes : SState × Int :=
          if ms = 0 then
            let q := abRec newBoard (!isWhite) (depth - 1) (-beta) (-al) (ply + 1) stA
            (q.2.1, -q.2.2)
          else
            let q1 := abRec newBoard (!isWhite) (depth - 1 - reduction) (-al - 1)
              (-al) (ply + 1) stA
            let score1 := -q1.2.2
            if al < score1 ∧ (0 < reduction ∨ score1 < beta) then
              let stL := { q1.2.1 with lmr_saves :=
                q1.2.1.lmr_saves + (if 0 < reduction then 1 else 0) }
              let q2 := abRec newBoard (!isWhite) (depth - 1) (-beta) (-al)
                (ply + 1) stL
              (q2.2.1, -q2.2.2)
            else (q1.2.1, score1)
        let stB := sRes.1
        let score := sRes.2
        let ms1 := ms + 1
        let best1 := if best < score then score else best
        let hit := al < score
        let al1 := if hit then score else al
        let stC := if hit then updateHistory stB move depth true else stB
        if beta ≤ al1 then
          let stD := { stC with
            beta_cutoffs := stC.beta_cutoffs + 1,
            first_move_cutoffs :=
              stC.first_move_cutoffs + (if i = 0 then 1 else 0) }
          let stE :=
            if move.captured = none ∧ cfg.use_killer_moves then
              addKillerMove stD move ply
            else stD
          (updateHistory stE move depth true, al1, best1, ms1, true)
        else (stC, al1, best1, ms1, false))
    (st4, alpha, -999999, 0, false)
  let stG := r.1
  let bestScore := r.2.2.1
  let ttFlag := ttFlagOf bestScore beta
  let tt2 := ttStore stG.tt posKey depth bestScore ttFlag orderedMoves.head?
  let stH := { stG with tt := tt2 }
  (board4, stH, bestScore)

/-- Embeds `SearchEngine._alpha_beta`.  The null-move call passes the same board
object, so its post-call board is threaded; every other recursion searches a
fresh copy from `_make_move`. -/
def alphaBeta (cfg : AIConfigL) (hashF : Sq → Nat → Nat → Nat)
    (stop : Nat → Bool) :
    Nat → Board → Bool → Int → Int → Int → Nat → SState →
    Board × SState × Int
  | 0, board, _, _, _, _, _, st => (board, st, 0)
  | fuel+1, board, isWhite, depth, alpha, beta, ply, st =>
    let s1 := shouldStopSearch stop st
    if s1.2 then (board, s1.1, 0)
    else
      let st2 := { s1.1 with nodes_searched := s1.1.nodes_searched + 1 }
      let posKey := getPositionKey hashF board isWhite
      let pr := ttProbe st2.tt posKey depth alpha beta
      let st3 := { st2 with tt := pr.1 }
      let ttScore := pr.2.1
      let ttMove := pr.2.2
      if ttScore.isSome ∧ 0 < depth then (board, st3, ttScore.getD 0)
      else if depth ≤ 0 then quiescence fuel board isWhite alpha beta st3
      else
        let moves := aiGenerateMoves board isWhite MType.ALL
        if moves.isEmpty then
          if isKingInCheckAI board isWhite then (board, st3, -999999 + ply)
          else (board, st3, 0)
        else
          let nullTry :=
            if cfg.use_null_move_pruning ∧ 3 ≤ depth ∧
                ¬(isKingInCheckAI board isWhite) ∧ hasNonPawnPieces board isWhite then
              let reduction := 3 + depth / 4
              some (alphaBeta cfg hashF stop fuel board (!isWhite)
                (depth - reduction - 1) (-beta) (-beta + 1) (ply + 1) st3)
            else none
          match nullTry with
          | some q =>
            if beta ≤ -q.2.2 then
              (q.1, { q.2.1 with null_move_cuts := q.2.1.null_move_cuts + 1 }, beta)
            else
              abSearchMoves cfg (alphaBeta cfg hashF stop fuel) posKey moves
                isWhite depth alpha beta ply ttMove q.1 q.2.1
          | none =>
            abSearchMoves cfg (alphaBeta cfg hashF stop fuel) posKey moves
              isWhite depth alpha beta ply ttMove board st3

/-- Embeds `SearchEngine._search_root`. -/
def searchRoot (cfg : AIConfigL) (hashF : Sq → Nat → Nat → Nat)
    (stop : Nat → Bool) (fuel : Nat) (board : Board) (isWhite : Bool)
    (moves : List MoveAI) (depth : Int) (st : SState) :
    Board × SState × Option MoveAI :=
  let orderedMoves := orderMoves st cfg.use_killer_moves board moves 0 none
  let r := orderedMoves.foldl
    (fun (acc : SState × Option MoveAI × Int × Bool) move =>
      let (stA, bm, best, done) := acc
      if done then acc
      else
        let s1 := shouldStopSearch stop stA
        if s1.2 then (s1.1, bm, best, true)
        else
          let newBoard := makeMoveAI board move
          let q := alphaBeta cfg hashF stop fuel newBoard (!isWhite) (depth - 1)
            (-999999) 999999 1 s1.1
          let score := -q.2.2
          if best < score then (q.2.1, some move, score, false)
          else (q.2.1, bm, best, false))
    (st, none, -999999, false)
  (board, r.1, r.2.1)

/-- Embeds `SearchEngine._convert_moves` (the `hasattr` tests are always true: the
Move class sets all three flags in `__init__`). -/
def convertMoves (board : Board) (originalMoves : List MoveG) : List MoveAI :=
  originalMoves.map
    (fun move =>
      let piece := bGet board move.start_row move.start_col
      let capSq := bGet board move.end_row move.end_col
      let captured : Option Sq := if capSq ≠ sqE then some capSq else none
      let specialFlag :=
        if move.pawn_promotion then "promotion"
        else if move.enPassant then "en_passant"
        else if move.is_castle_move then "castle"
        else ""
      ⟨move.start_row, move.start_col, move.end_row, move.end_col, piece,
        captured, specialFlag⟩)

/-- Embeds `SearchEngine._convert_back_to_original_move`. -/
def convertBack (internalMove : MoveAI) (originalMoves : List MoveG) :
    Option MoveG :=
  originalMoves.find?
    (fun m =>
      m.start_row == internalMove.from_row && m.start_col == internalMove.from_col &&
      m.end_row == internalMove.to_row && m.end_col == internalMove.to_col)

/-- A placeholder move value for the (guarded) `random.choice` indexing. -/
def dummyMoveG : MoveG := ⟨0, 0, 0, 0, sqE, sqE, false, false, false⟩

/-- Embeds `SearchEngine.find_best_move`.  `random.choice(valid_moves)` is embedded
as indexing with an arbitrary `randIdx` modulo the list length.  The prints
have no state effect and are dropped. -/
def findBestMove (cfg : AIConfigL) (hashF : Sq → Nat → Nat → Nat)
    (stop : Nat → Bool) (randIdx : Nat) (fuel : Nat) (board : Board)
    (isWhite : Bool) (validMoves : List MoveG) (st : SState) :
    Board × SState × Option MoveG :=
  let st0 := { st with
    nodes_searched := 0,
    tt := ttNewSearch st.tt,
    killer_moves := [],
    history_scores := [],
    beta_cutoffs := 0, first_move_cutoffs := 0, null_move_cuts := 0,
    lmr_saves := 0 }
  if validMoves.isEmpty then (board, st0, none)
  else if validMoves.length = 1 then (board, st0, validMoves.head?)
  else
    let moves := convertMoves board validMoves
    let r := (List.range cfg.max_depth).foldl
      (fun (acc : Board × SState × Option MoveAI × Bool) dIdx =>
        let (bd, stA, best, done) := acc
        if done then acc
        else
          let s1 := shouldStopSearch stop stA
          if s1.2 then (bd, s1.1, best, true)
          else
            let depth : Int := Int.ofNat dIdx + 1
            let q := searchRoot cfg hashF stop fuel bd isWhite moves depth s1.1
            let s2 := shouldStopSearch stop q.2.1
            if ¬s2.2 ∧ q.2.2.isSome then (q.1, s2.1, q.2.2, false)
            else (q.1, s2.1, best, false))
      (board, st0, none, false)
    match r.2.2.1 with
    | some bm => (r.1, r.2.1, convertBack bm validMoves)
    | none =>
      (r.1, r.2.1, some (pyIdx validMoves dummyMoveG
        (Int.ofNat (randIdx % validMoves.length))))

/-! Helper lemmas about the association-list primitives. -/

theorem aset_length_of_some [DecidableEq κ] (l : List (κ × ν)) (k : κ) (v : ν)
    (e : ν) (h : alookup l k = some e) : (aset l k v).length = l.length := by
  induction l with
  | nil => simp [alookup] at h
  | cons hd tl ih =>
    by_cases hk : hd.1 = k
    · simp [aset, hk]
    · simp only [alookup, hk, if_neg hk] at h
      simp [aset, hk, ih h]

theorem aset_length_of_none [DecidableEq κ] (l : List (κ × ν)) (k : κ) (v : ν)
    (h : alookup l k = none) : (aset l k v).length = l.length + 1 := by
  induction l with
  | nil => simp [aset]
  | cons hd tl ih =>
    by_cases hk : hd.1 = k
    · simp [alookup, hk] at h
    · simp only [alookup, hk, if_neg hk] at h
      simp [aset, hk, ih h]

/-! Claim C5: the position fingerprint. -/

/-- An all-empty row. -/
def emptyRow : List Sq := [sqE, sqE, sqE, sqE, sqE, sqE, sqE, sqE]

/-- A board with a single piece, used to evaluate the fingerprint. -/
def oneKingBoard : Board :=
  [[wK, sqE, sqE, sqE, sqE, sqE, sqE, sqE],
   emptyRow, emptyRow, emptyRow, emptyRow, emptyRow, emptyRow, emptyRow]

/-- A hash function whose values exceed 31 bits, as Python's 64-bit tuple
hashes routinely do. -/
def h32 : Sq → Nat → Nat → Nat := fun _ _ _ => 4294967296

/-- Claim C5, counterexample: with a hash contribution of `2^32`, the key the
code computes (mask `0x7FFFFFFF`) differs from the claimed low-63-bit
reduction, so the fingerprint is not "the low 63 bits of the combined
value". -/
theorem c5_counterexample :
    getPositionKey h32 oneKingBoard true = 1 ∧
    specPositionKey h32 oneKingBoard true = 4294967297 ∧
    getPositionKey h32 oneKingBoard true ≠ specPositionKey h32 oneKingBoard true := by
  refine ⟨by decide, by decide, by decide⟩

/-- Claim C5 (amended): the fingerprint is the XOR combination of one
contribution per occupied square plus the side-to-move bit, reduced to the
31-bit range `[0, 2^31)` by keeping the low 31 bits (mask `0x7FFFFFFF`). -/
theorem c5_amended (hashF : Sq → Nat → Nat → Nat) (board : Board) (w : Bool) :
    getPositionKey hashF board w = rawPositionKey hashF board w % 2 ^ 31 ∧
    getPositionKey hashF board w < 2 ^ 31 := by
  have h : (0x7FFFFFFF : Nat) = 2 ^ 31 - 1 := by norm_num
  constructor
  · rw [getPositionKey, h, Nat.and_pow_two_sub_one_eq_mod]
  · rw [getPositionKey, h, Nat.and_pow_two_sub_one_eq_mod]
    exact Nat.mod_lt _ (by norm_num)

/-! Claim C3: the bound flag and stored move of `_alpha_beta`. -/

/-- Claim C3, counterexample: at a node entered with initial `α = 10`,
`β = 11` (a null-window scout call) and a fail-low `best_score = 5`, the code
stores the `exact` flag (its comparison is against the `-999999` sentinel),
while the claim requires `upper` because `best_score` is not strictly between
the initial `α` and `β`. -/
theorem c3_counterexample :
    ttFlagOf 5 11 = ttEXACT ∧ specBoundFlag 10 11 5 = ttUPPER ∧
    ttEXACT ≠ ttUPPER := by
  refine ⟨by decide, by decide, by decide⟩

/-- Claim C3 (amended): the stored flag is `exact` iff `best_score` lies
strictly between `-999999` and `beta` (the sentinel, not the node's initial
alpha), `lower` iff `best_score ≥ beta`, and `upper` otherwise (i.e. iff
`best_score ≤ -999999` and `best_score < beta`); and the move passed to the
store — the head of the ordered move list — exists whenever the node has
moves, because ordering preserves the length of the list. -/
theorem c3_amended :
    (∀ bestScore beta : Int,
      (ttFlagOf bestScore beta = ttEXACT ↔ -999999 < bestScore ∧ bestScore < beta) ∧
      (ttFlagOf bestScore beta = ttLOWER ↔ beta ≤ bestScore) ∧
      (ttFlagOf bestScore beta = ttUPPER ↔ bestScore ≤ -999999 ∧ bestScore < beta)) ∧
    (∀ st uk bd moves ply ttm, moves ≠ ([] : List MoveAI) →
      (orderMoves st uk bd moves ply ttm).head?.isSome) := by
  constructor
  · intro b β
    unfold ttFlagOf ttEXACT ttLOWER ttUPPER
    refine ⟨?_, ?_, ?_⟩ <;> split_ifs <;> simp_all
  · intro st uk bd moves ply ttm h
    have hl : (orderMoves st uk bd moves ply ttm).length = moves.length := by
      unfold orderMoves
      rw [List.length_map, List.length_mergeSort, List.length_map]
    rw [List.head?_isSome, ← List.length_pos, hl, List.length_pos]
    exact h

/-- A concrete internal move (e2-e4) for witnesses. -/
def dummyMoveAIx : MoveAI := ⟨6, 4, 4, 4, wp, none, ""⟩

/-- A freshly initialised search state (64 MB table, all counters zero). -/
def sStateInit : SState := ⟨ttInit 64, 0, 0, [], [], 0, 0, 0, 0⟩

/-- Witness for the amended C3 at a concrete node. -/
theorem c3_amended_witness :
    ([dummyMoveAIx] ≠ ([] : List MoveAI)) ∧
    (orderMoves sStateInit true initialBoard [dummyMoveAIx] 0 none).head?.isSome :=
  ⟨by decide, c3_amended.2 sStateInit true initialBoard [dummyMoveAIx] 0 none (by decide)⟩

/-! Claim C6: the transposition-table store policy. -/

/-- Claim C6: on a key already present (with the reachable-state property
that the stored generation is not newer than the table's), `store` overwrites
exactly when the incoming depth is at least the stored depth or the entry is
more than two searches old, and otherwise leaves the table unchanged; on an
absent key it inserts exactly when under capacity and otherwise leaves the
table unchanged. -/
theorem c6_store_policy (t : TTData) (key : Nat) (depth score : Int)
    (flag : Nat) (bm : Option MoveAI) :
    (∀ old, alookup t.table key = some old → old.age ≤ t.generation →
      ((old.depth ≤ depth ∨ 2 < t.generation - old.age →
        ttStore t key depth score flag bm =
          { t with table := aset t.table key ⟨score, depth, flag, bm, t.generation⟩ }) ∧
       (¬(old.depth ≤ depth ∨ 2 < t.generation - old.age) →
        ttStore t key depth score flag bm = t))) ∧
    (alookup t.table key = none →
      ((t.table.length < t.size →
        ttStore t key depth score flag bm =
          { t with table := aset t.table key ⟨score, depth, flag, bm, t.generation⟩ }) ∧
       (t.size ≤ t.table.length → ttStore t key depth score flag bm = t))) := by
  constructor
  · intro old hfind hage
    have habs : ((t.generation : Int) - (old.age : Int)).natAbs = t.generation - old.age := by
      omega
    constructor
    · intro hcond
      unfold ttStore
      rw [hfind]
      simp only [habs]
      rw [if_pos hcond]
    · intro hcond
      unfold ttStore
      rw [hfind]
      simp only [habs]
      rw [if_neg hcond]
  · intro hfind
    constructor
    · intro hlt
      unfold ttStore
      rw [hfind]
      simp only [if_pos hlt]
    · intro hge
      unfold ttStore
      rw [hfind]
      rw [if_neg (by omega)]

/-- A small concrete table state for the C6 and C7 witnesses. -/
def ttW : TTData := ⟨2, [(5, ⟨1, 3, 0, none, 0⟩)], 1, 0, 0⟩

/-- Witness for C6: on `ttW` the key 5 is present with depth 3, so an
incoming depth-5 store overwrites. -/
theorem c6_store_policy_witness :
    ttStore ttW 5 5 7 0 none =
      { ttW with table := aset ttW.table 5 ⟨7, 5, 0, none, 1⟩ } :=
  ((c6_store_policy ttW 5 5 7 0 none).1 ⟨1, 3, 0, none, 0⟩ (by decide) (by decide)).1
    (by decide)

/-! Claim C7: the capacity bound. -/

/-- Claim C7: a table built from `size_mb` megabytes has capacity
`size_mb*1024*1024/32`; the entry count starts at zero and stays at or below
the capacity across `store`, `probe`, `new_search` and `clear`. -/
theorem c7_capacity (mb : Nat) (_hmb : 0 < mb) :
    (ttInit mb).size = mb * 1024 * 1024 / 32 ∧
    (ttInit mb).table.length ≤ (ttInit mb).size ∧
    (∀ t key depth score flag bm, t.table.length ≤ t.size →
      (ttStore t key depth score flag bm).table.length ≤
        (ttStore t key depth score flag bm).size) ∧
    (∀ t key depth alpha beta, t.table.length ≤ t.size →
      (ttProbe t key depth alpha beta).1.table.length ≤
        (ttProbe t key depth alpha beta).1.size) ∧
    (∀ t, t.table.length ≤ t.size →
      (ttNewSearch t).table.length ≤ (ttNewSearch t).size) ∧
    (∀ t, (ttClear t).table.length ≤ (ttClear t).size) := by
  refine ⟨rfl, by simp [ttInit], ?_, ?_, ?_, ?_⟩
  · intro t key depth score flag bm h
    cases hfind : alookup t.table key with
    | some old =>
      unfold ttStore
      rw [hfind]
      dsimp only
      split_ifs with hc
      · rw [aset_length_of_some t.table key _ old hfind]
        exact h
      · exact h
    | none =>
      unfold ttStore
      rw [hfind]
      dsimp only
      split_ifs with hc
      · dsimp only
        rw [aset_length_of_none t.table key _ hfind]
        omega
      · exact h
  · intro t key depth alpha beta h
    cases hfind : alookup t.table key with
    | some old =>
      unfold ttProbe
      rw [hfind]
      dsimp only
      split_ifs <;> exact h
    | none =>
      unfold ttProbe
      rw [hfind]
      exact h
  · intro t h
    exact h
  · intro t
    simp [ttClear]

/-- Witness for C7 at `size_mb = 1` and a concrete store. -/
theorem c7_capacity_witness :
    0 < 1 ∧ ttW.table.length ≤ ttW.size ∧
    (ttStore ttW 9 4 0 0 none).table.length ≤ (ttStore ttW 9 4 0 0 none).size :=
  ⟨by decide, by decide,
    (c7_capacity 1 (by decide)).2.2.1 ttW 9 4 0 0 none (by decide)⟩

/-! Claim C4: the quiescence move list. -/

/-- Membership in a fold whose step may only append elements satisfying `P`. -/
theorem foldl_pred_mem {α β : Type} (P : α → Prop) (s : List α → β → List α)
    (hs : ∀ acc b m, m ∈ s acc b → m ∈ acc ∨ P m) :
    ∀ (l : List β) (init : List α) (m : α), m ∈ l.foldl s init → m ∈ init ∨ P m := by
  intro l
  induction l with
  | nil => intro init m hm; exact Or.inl hm
  | cons hd tl ih =>
    intro init m hm
    rcases ih (s init hd) m hm with h | h
    · exact hs init hd m h
    · exact Or.inr h

/-- The property the amended C4 asserts of every move in the quiescence list:
it captures something and carries no special flag. -/
def capOnly (m : MoveAI) : Prop := m.captured ≠ none ∧ m.special_flag = ""

theorem aiPawnMoves_capOnly (board : Board) (row col : Int) (color : Char) :
    ∀ m, m ∈ aiPawnMoves board row col color MType.CAPTURES → capOnly m := by
  intro m hm
  simp only [aiPawnMoves, reduceCtorEq, or_self, if_false, or_true, if_true,
    List.nil_append] at hm
  rcases foldl_pred_mem capOnly _ (by
    intro acc b x hx
    try dsimp only at hx
    split_ifs at hx
    all_goals
      first
        | exact Or.inl hx
        | (rcases List.mem_append.mp hx with h9 | h9
           · exact Or.inl h9
           · simp only [List.mem_singleton] at h9
             subst h9
             exact Or.inr ⟨by simp, rfl⟩)) _ [] m hm with h | h
  · simp at h
  · exact h

theorem aiSlideRay_go_capOnly (board : Board) (piece : Sq) (color : Char)
    (row col dr dc : Int) :
    ∀ (n : Nat) (i : Int) (m : MoveAI),
      m ∈ aiSlideRay.go board piece color MType.CAPTURES row col dr dc n i →
      capOnly m := by
  intro n
  induction n with
  | zero => intro i m hm; simp [aiSlideRay.go] at hm
  | succ k ih =>
    intro i m hm
    simp only [aiSlideRay.go, reduceCtorEq, or_self, if_false, or_true, if_true,
      List.nil_append] at hm
    split_ifs at hm with h1 h2 h3
    · exact ih (i + 1) m hm
    · simp only [List.mem_singleton] at hm
      subst hm
      exact ⟨by simp, rfl⟩
    · simp at hm
    · simp at hm

theorem aiSlidingMoves_capOnly (board : Board) (row col : Int) (color : Char)
    (dirs : List (Int × Int)) :
    ∀ m, m ∈ aiSlidingMoves board row col color dirs MType.CAPTURES → capOnly m := by
  intro m hm
  simp only [aiSlidingMoves, aiSlideRay] at hm
  rcases foldl_pred_mem capOnly _ (by
    intro acc b x hx
    try dsimp only at hx
    rcases List.mem_append.mp hx with h | h
    · exact Or.inl h
    · exact Or.inr (aiSlideRay_go_capOnly board _ color row col b.1 b.2 7 1 x h))
    dirs [] m hm with h | h
  · simp at h
  · exact h

theorem aiKnightMoves_capOnly (board : Board) (row col : Int) (color : Char) :
    ∀ m, m ∈ aiKnightMoves board row col color MType.CAPTURES → capOnly m := by
  intro m hm
  simp only [aiKnightMoves, reduceCtorEq, or_self, if_false, or_true, if_true] at hm
  rcases foldl_pred_mem capOnly _ (by
    intro acc b x hx
    try dsimp only at hx
    split_ifs at hx
    all_goals
      first
        | exact Or.inl hx
        | (rcases List.mem_append.mp hx with h9 | h9
           · exact Or.inl h9
           · simp only [List.mem_singleton] at h9
             subst h9
             exact Or.inr ⟨by simp, rfl⟩)) knightOffsets [] m hm with h | h
  · simp at h
  · exact h

theorem aiKingMoves_capOnly (board : Board) (row col : Int) (color : Char) :
    ∀ m, m ∈ aiKingMoves board row col color MType.CAPTURES → capOnly m := by
  intro m hm
  simp only [aiKingMoves, reduceCtorEq, or_self, if_false, or_true, if_true] at hm
  rcases foldl_pred_mem capOnly _ (by
    intro acc b x hx
    try dsimp only at hx
    split_ifs at hx
    all_goals
      first
        | exact Or.inl hx
        | (rcases List.mem_append.mp hx with h9 | h9
           · exact Or.inl h9
           · simp only [List.mem_singleton] at h9
             subst h9
             exact Or.inr ⟨by simp, rfl⟩)) _ [] m hm with h | h
  · simp at h
  · exact h

theorem aiPieceMoves_capOnly (board : Board) (row col : Int) (piece : Sq) :
    ∀ m, m ∈ aiPieceMoves board row col piece MType.CAPTURES → capOnly m := by
  intro m hm
  simp only [aiPieceMoves] at hm
  split_ifs at hm
  · exact aiPawnMoves_capOnly board row col piece.c0 m hm
  · exact aiSlidingMoves_capOnly board row col piece.c0 _ m hm
  · exact aiKnightMoves_capOnly board row col piece.c0 m hm
  · exact aiSlidingMoves_capOnly board row col piece.c0 _ m hm
  · exact aiSlidingMoves_capOnly board row col piece.c0 _ m hm
  · exact aiKingMoves_capOnly board row col piece.c0 m hm
  · simp at hm

/-- Claim C4 (amended): every move generated with `MoveType.CAPTURES` — the
list quiescence searches — is a capture (its `captured` field is set), but no
generated move ever carries a special flag: the generator knows nothing about
en passant, and promotion-captures appear as plain captures. -/
theorem c4_amended (board : Board) (isWhite : Bool) (m : MoveAI)
    (hm : m ∈ aiGenerateMoves board isWhite MType.CAPTURES) :
    m.captured ≠ none ∧ m.special_flag = "" := by
  simp only [aiGenerateMoves] at hm
  rcases foldl_pred_mem capOnly _ (by
    intro acc b x hx
    refine foldl_pred_mem capOnly _ (by
      intro acc2 b2 y hy
      try dsimp only at hy
      split_ifs at hy
      all_goals
        first
          | exact Or.inl hy
          | (rcases List.mem_append.mp hy with h9 | h9
             · exact Or.inl h9
             · exact Or.inr (aiPieceMoves_capOnly board _ _ _ y h9))) (List.range 8) acc x hx)
    (List.range 8) [] m hm with h | h
  · simp at h
  · exact h

/-- A board where the white a7 pawn can capture a rook on b8 (a
promotion-capture in the game rules). -/
def capWitnessBoard : Board :=
  [[sqE, bR, sqE, sqE, sqE, sqE, sqE, sqE],
   [wp, sqE, sqE, sqE, sqE, sqE, sqE, sqE],
   emptyRow, emptyRow, emptyRow, emptyRow, emptyRow, emptyRow]

/-- The capture `a7xb8` as the AI generator emits it: a plain capture with no
special flag. -/
def capWitnessMove : MoveAI := ⟨1, 0, 0, 1, wp, some bR, ""⟩

/-- Witness for the amended C4: a concrete capture generated with
`MoveType.CAPTURES`. -/
theorem c4_amended_witness :
    capWitnessMove ∈ aiGenerateMoves capWitnessBoard true MType.CAPTURES ∧
    capWitnessMove.captured ≠ none ∧ capWitnessMove.special_flag = "" :=
  ⟨by decide, c4_amended capWitnessBoard true capWitnessMove (by decide)⟩

/-! Reachability scaffolding: play a concrete game, checking every move
against `get_valid_moves`. -/

/-- Plays a list of from/to squares as plain (no-flag) moves.  Each move is
constructed exactly as the click handler does (`Move(from, to, board)`) and
checked for membership in `get_valid_moves` before being made; the returned
Boolean records that every move of the list was valid, so the final state is
reachable from the initial position. -/
def playChecked (s : GState) : List (Int × Int × Int × Int) → Bool × GState
  | [] => (true, s)
  | (sr, sc, er, ec) :: rest =>
    let r := getValidMoves s
    let m := mkMove sr sc er ec s.board false false false
    if r.2.contains m then playChecked (makeMoveGS r.1 m) rest
    else (false, s)

/-- The opening `1.e4 a6 2.e5 d5`, after which white may capture d5 en
passant (`exd6`). -/
def c2Played : List (Int × Int × Int × Int) :=
  [(6, 4, 4, 4), (1, 0, 2, 0), (4, 4, 3, 4), (1, 3, 3, 3)]

/-- The C2 scenario, evaluated on the embedded code: after the reachable
position of `c2Played`, the en-passant capture `exd6` is in the generated
move list; making it and undoing it restores every field the claim names
except the board, where the en-passant target square d6 now holds a spurious
black pawn (`undo_move` writes `move.piece_captured` — the opposing pawn —
onto the end square, which was empty before the move). -/
def c2Check : Bool :=
  let pc := playChecked initialGState c2Played
  let s4 := pc.2
  let r4 := getValidMoves s4
  let mEp := mkMove 3 4 2 3 s4.board true false false
  let after := (undoMoveGS (makeMoveGS r4.1 mEp)).1
  pc.1 && r4.2.contains mEp &&
    (bGet s4.board 2 3 == sqE) && (bGet after.board 2 3 == bp) &&
    (after.white_to_move == s4.white_to_move) &&
    (after.current_castling_rights == s4.current_castling_rights) &&
    (after.enPassant_possible == s4.enPassant_possible) &&
    (after.white_king_location == s4.white_king_location) &&
    (after.black_king_location == s4.black_king_location) &&
    !(after.board == s4.board)

set_option maxRecDepth 200000 in
/-- Claim C2: make followed by undo is claimed to restore the state
bit-identically.  This evaluation shows the code violating it on a reachable
position with an en-passant capture: the board differs after undo (a phantom
black pawn appears on the en-passant target square) even though the other
named fields are restored. -/
theorem c2_bug_eval : c2Check = true := by decide

/-- A 16-ply game reaching a horizontal en-passant pin: White walks the king
to h5 behind the g5 pawn, Black posts a rook on b5 on the same rank, and
finally plays f7-f5.  The capture g5xf6 e.p. then removes both pawns from
rank 5, exposing the white king on h5 to the rook on b5. -/
def c1Played : List (Int × Int × Int × Int) :=
  [(6, 6, 4, 6), (1, 0, 3, 0), (4, 6, 3, 6), (0, 0, 2, 0),
   (7, 5, 5, 7), (2, 0, 2, 1), (7, 4, 7, 5), (2, 1, 3, 1),
   (7, 5, 6, 6), (1, 2, 2, 2), (6, 6, 5, 6), (1, 1, 2, 1),
   (5, 6, 4, 7), (1, 7, 2, 7), (4, 7, 3, 7), (1, 5, 3, 5)]

/-- The C1 scenario, evaluated on the embedded code: in the reachable
position after `c1Played` the en-passant target is f6; `get_valid_moves`
generates the capture g5xf6 e.p. (the pin scan sees two pieces on the rank
and records no pin), and in the resulting position the program's own check
detector reports the white king — the side that just moved — attacked. -/
def c1Check : Bool :=
  let pc := playChecked initialGState c1Played
  let s16 := pc.2
  let r16 := getValidMoves s16
  let mEp := mkMove 3 6 2 5 s16.board true false false
  let s17 := makeMoveGS r16.1 mEp
  pc.1 && (s16.enPassant_possible == some (2, 5)) && r16.2.contains mEp &&
    (checkForPinsAndChecks s17.board true s17.white_king_location
      s17.black_king_location).1

set_option maxRecDepth 200000 in
/-- Claim C1: `get_valid_moves` is claimed never to emit a move that leaves
the mover's king attacked.  This evaluation shows the code violating it on a
reachable position: the en-passant capture g5xf6 is generated although it
leaves the white king in check from the rook on b5. -/
theorem c1_bug_eval : c1Check = true := by decide

/-- The C4 counterexample data: in the reachable position after `c2Played`
the en-passant capture `exd6` is available to the side to move (it is in
`get_valid_moves`), yet the capture list the quiescence search uses contains
no en-passant move — indeed no move to the en-passant square at all; and on a
board with a promotion-capture available, the generated capture carries no
promotion flag. -/
def c4CheckB : Bool :=
  let pc := playChecked initialGState c2Played
  let s4 := pc.2
  let r4 := getValidMoves s4
  let mEp := mkMove 3 4 2 3 s4.board true false false
  let caps := aiGenerateMoves s4.board true MType.CAPTURES
  let promoCaps := aiGenerateMoves capWitnessBoard true MType.CAPTURES
  pc.1 && r4.2.contains mEp &&
    caps.all (fun m => m.special_flag != "en_passant") &&
    caps.all (fun m => !(m.to_row == 2 && m.to_col == 3)) &&
    promoCaps.contains capWitnessMove &&
    promoCaps.all (fun m => m.special_flag != "promotion")

set_option maxRecDepth 200000 in
/-- Claim C4, counterexample: an available en-passant capture has no
corresponding move (flagged or otherwise) in the `MoveType.CAPTURES` list,
and an available promotion-capture appears without its special flag. -/
theorem c4_counterexample : c4CheckB = true := by decide

/-! Claim C8: the checkmate/stalemate flags set by `get_valid_moves`. -/

/-- Claim C8: after a call to `get_valid_moves` — from any state whose
incoming flags are consistent with the position, which holds at every call
the program makes — `checkmate` is true iff the side to move is in check with
an empty move list, `stalemate` is true iff it is not in check with an empty
move list, and both are false when the list is non-empty. -/
theorem c8_flags (s : GState)
    (hc : s.checkmate = true →
      (getValidMoves s).1.in_check = true ∧ (getValidMoves s).2 = [])
    (hs : s.stalemate = true →
      (getValidMoves s).1.in_check = false ∧ (getValidMoves s).2 = []) :
    (getValidMoves s).1.checkmate =
      ((getValidMoves s).1.in_check && (getValidMoves s).2.isEmpty) ∧
    (getValidMoves s).1.stalemate =
      (!(getValidMoves s).1.in_check && (getValidMoves s).2.isEmpty) := by
  unfold getValidMoves at *
  generalize gvmCore s = core at *
  obtain ⟨⟨inChk, checks⟩, pinsF, moves⟩ := core
  dsimp only at hc hs ⊢
  by_cases hm : moves.length = 0
  · have hme : moves = [] := List.length_eq_zero.mp hm
    subst hme
    cases inChk
    · simp_all
    · simp_all
  · simp_all [List.isEmpty_iff, List.length_eq_zero]

/-- Witness for C8 at the initial position (both incoming flags false). -/
theorem c8_flags_witness :
    (getValidMoves initialGState).1.checkmate =
      ((getValidMoves initialGState).1.in_check &&
        (getValidMoves initialGState).2.isEmpty) ∧
    (getValidMoves initialGState).1.stalemate =
      (!(getValidMoves initialGState).1.in_check &&
        (getValidMoves initialGState).2.isEmpty) :=
  c8_flags initialGState (fun h => absurd h (by decide))
    (fun h => absurd h (by decide))

/-! Claims C9 and C10: the search never writes the input board, and the
trivial cases of `find_best_move`. -/

/-- Quiescence returns the board object it was handed unchanged: the only
board it modifies is the fresh copy `_make_move` creates for each capture. -/
theorem quiescence_board (fuel : Nat) (board : Board) (w : Bool)
    (alpha beta : Int) (st : SState) :
    (quiescence fuel board w alpha beta st).1 = board := by
  cases fuel with
  | zero => rfl
  | succ n =>
    unfold quiescence
    dsimp only
    split <;> rfl

/-- The alpha-beta recursion returns the board object it was handed
unchanged: every child position is searched on a fresh copy, and the
null-move call passes the same (unwritten) board through. -/
theorem abSearchMoves_board (cfg : AIConfigL)
    (abRec : Board → Bool → Int → Int → Int → Nat → SState → Board × SState × Int)
    (posKey : Nat) (moves : List MoveAI) (isWhite : Bool)
    (depth alpha beta : Int) (ply : Nat) (ttMove : Option MoveAI)
    (board4 : Board) (st4 : SState) :
    (abSearchMoves cfg abRec posKey moves isWhite depth alpha beta ply ttMove
      board4 st4).1 = board4 := rfl

theorem alphaBeta_board (cfg : AIConfigL) (hashF : Sq → Nat → Nat → Nat)
    (stop : Nat → Bool) :
    ∀ (fuel : Nat) (board : Board) (w : Bool) (depth alpha beta : Int)
      (ply : Nat) (st : SState),
      (alphaBeta cfg hashF stop fuel board w depth alpha beta ply st).1 = board := by
  intro fuel
  induction fuel with
  | zero => intro board w depth alpha beta ply st; rfl
  | succ n ih =>
    intro board w depth alpha beta ply st
    unfold alphaBeta
    dsimp only
    split
    · rfl
    · split
      · rfl
      · split
        · exact quiescence_board n board w alpha beta _
        · split
          · split <;> rfl
          · split
            · rename_i q hq
              split_ifs at hq with hc
              injection hq with hq1
              subst hq1
              split
              · exact ih board (!w) _ _ _ _ _
              · exact (abSearchMoves_board cfg _ _ _ _ _ _ _ _ _ _ _).trans
                  (ih board (!w) _ _ _ _ _)
            · rfl

/-- A fold whose step preserves the first (board) component of its
accumulator preserves it overall. -/
theorem foldl_fst_eq {β γ : Type} (step : Board × γ → β → Board × γ)
    (hstep : ∀ acc b, (step acc b).1 = acc.1) :
    ∀ (l : List β) (acc : Board × γ), (l.foldl step acc).1 = acc.1 := by
  intro l
  induction l with
  | nil => intro acc; rfl
  | cons hd tl ihl =>
    intro acc
    rw [List.foldl_cons, ihl (step acc hd), hstep]

/-- The root search returns the board it was handed unchanged. -/
theorem searchRoot_board (cfg : AIConfigL) (hashF : Sq → Nat → Nat → Nat)
    (stop : Nat → Bool) (fuel : Nat) (board : Board) (w : Bool)
    (moves : List MoveAI) (depth : Int) (st : SState) :
    (searchRoot cfg hashF stop fuel board w moves depth st).1 = board := rfl

/-- Claim C9: for every configuration, hash function, stop oracle (any
cancellation pattern, including mid-search), random index, recursion bound,
board, side, move list and search state, `find_best_move` returns the board
it was given unchanged — every recursion step searches a fresh copy produced
by `_make_move` and no step writes the input board. -/
theorem c9_board_unchanged (cfg : AIConfigL) (hashF : Sq → Nat → Nat → Nat)
    (stop : Nat → Bool) (randIdx fuel : Nat) (board : Board) (w : Bool)
    (validMoves : List MoveG) (st : SState) :
    (findBestMove cfg hashF stop randIdx fuel board w validMoves st).1 = board := by
  unfold findBestMove
  dsimp only
  split
  · rfl
  · split
    · rfl
    · split
      all_goals
        dsimp only
        refine (foldl_fst_eq _ ?_ _ _).trans rfl
        intro acc b
        obtain ⟨bd, stA, best, done⟩ := acc
        dsimp only
        split
        · rfl
        · split
          · rfl
          · split
            · rfl
            · rfl

/-- Invariant preservation through a fold. -/
theorem foldl_inv {α β : Type} (P : α → Prop) (step : α → β → α)
    (hstep : ∀ acc b, P acc → P (step acc b)) :
    ∀ (l : List β) (acc : α), P acc → P (l.foldl step acc) := by
  intro l
  induction l with
  | nil => intro acc h; exact h
  | cons hd tl ih => intro acc h; exact ih (step acc hd) (hstep acc hd h)

/-- Invariant preservation through a fold whose elements come from a fixed
list. -/
theorem foldl_inv_mem {α β : Type} (P : α → Prop) (l0 : List β)
    (step : α → β → α)
    (hstep : ∀ acc b, b ∈ l0 → P acc → P (step acc b)) :
    ∀ (l : List β), (∀ b, b ∈ l → b ∈ l0) → ∀ acc, P acc → P (l.foldl step acc) := by
  intro l
  induction l with
  | nil => intro _ acc h; exact h
  | cons hd tl ih =>
    intro hsub acc h
    exact ih (fun b hb => hsub b (List.mem_cons_of_mem hd hb)) _
      (hstep acc hd (hsub hd (List.mem_cons_self hd tl)) h)

/-- Move ordering is a permutation: every ordered move is one of the input
moves. -/
theorem orderMoves_mem (st : SState) (uk : Bool) (bd : Board)
    (moves : List MoveAI) (ply : Nat) (ttm : Option MoveAI) (m : MoveAI)
    (h : m ∈ orderMoves st uk bd moves ply ttm) : m ∈ moves := by
  unfold orderMoves at h
  dsimp only at h
  rcases List.mem_map.mp h with ⟨p, hp, hpe⟩
  have hp2 := (List.mergeSort_perm _ _).mem_iff.mp hp
  rcases List.mem_map.mp hp2 with ⟨mv, hmv, hEq⟩
  rw [← hpe, ← hEq]
  exact hmv

/-- The move `_search_root` returns, when not `None`, is one of the moves it
was given. -/
theorem searchRoot_mem (cfg : AIConfigL) (hashF : Sq → Nat → Nat → Nat)
    (stop : Nat → Bool) (fuel : Nat) (bd : Board) (w : Bool)
    (moves : List MoveAI) (depth : Int) (st : SState) (m : MoveAI)
    (h : (searchRoot cfg hashF stop fuel bd w moves depth st).2.2 = some m) :
    m ∈ moves := by
  unfold searchRoot at h
  dsimp only at h
  refine foldl_inv_mem
    (fun acc : SState × Option MoveAI × Int × Bool =>
      ∀ x, acc.2.1 = some x → x ∈ moves)
    (orderMoves st cfg.use_killer_moves bd moves 0 none) _ ?_ _
    (fun b hb => hb) (st, none, -999999, false) (by intro x hx; cases hx) m h
  intro acc b hb hP
  obtain ⟨stA, bm, best, done⟩ := acc
  dsimp only
  split
  · exact hP
  · split
    · exact fun x hx => hP x hx
    · split
      · intro x hx
        cases hx
        exact orderMoves_mem st cfg.use_killer_moves bd moves 0 none _ hb
      · exact fun x hx => hP x hx

/-- Every converted internal move shares its four coordinates with the
original move it came from. -/
theorem convertBack_isSome (bd : Board) (validMoves : List MoveG) (ma : MoveAI)
    (hma : ma ∈ convertMoves bd validMoves) :
    (convertBack ma validMoves).isSome := by
  rcases List.mem_map.mp hma with ⟨v, hv, hEq⟩
  unfold convertBack
  rw [List.find?_isSome]
  refine ⟨v, hv, ?_⟩
  rw [← hEq]
  simp

/-- Claim C10: `find_best_move` returns `None` exactly when the legal move
list it receives is empty (with a non-empty list there is always a result:
the sole move, a converted search result — which always matches one of the
original moves — or the random fallback); and on a one-element list it
returns that move immediately, before any search, with `nodes_searched`
still zero. -/
theorem c10_trivial_cases (cfg : AIConfigL) (hashF : Sq → Nat → Nat → Nat)
    (stop : Nat → Bool) (randIdx fuel : Nat) (board : Board) (w : Bool)
    (validMoves : List MoveG) (st : SState) :
    ((findBestMove cfg hashF stop randIdx fuel board w validMoves st).2.2 = none ↔
      validMoves = []) ∧
    (∀ m, validMoves = [m] →
      (findBestMove cfg hashF stop randIdx fuel board w validMoves st).2.2 = some m ∧
      (findBestMove cfg hashF stop randIdx fuel board w validMoves st).2.1.nodes_searched = 0) := by
  constructor
  · constructor
    · intro hres
      by_contra hne
      revert hres
      unfold findBestMove
      dsimp only
      split
      · rename_i hemp
        exact absurd (List.isEmpty_iff.mp hemp) hne
      · split
        · rename_i hlen
          intro hcontra
          cases validMoves with
          | nil => exact hne rfl
          | cons a t => exact Option.noConfusion hcontra
        · split
          · rename_i r bm hbm
            intro hcontra
            dsimp only at hcontra
            have hmem : bm ∈ convertMoves board validMoves := by
              refine foldl_inv
                (fun acc : Board × SState × Option MoveAI × Bool =>
                  ∀ x, acc.2.2.1 = some x → x ∈ convertMoves board validMoves)
                _ ?_ (List.range cfg.max_depth) _ (by intro x hx; cases hx) bm hbm
              intro acc b hP
              obtain ⟨bd2, stA, best, done⟩ := acc
              dsimp only
              split
              · exact hP
              · split
                · exact fun x hx => hP x hx
                · split
                  · intro x hx
                    exact searchRoot_mem cfg hashF stop fuel bd2 w _ _ _ x hx
                  · exact fun x hx => hP x hx
            have hsome := convertBack_isSome board validMoves bm hmem
            rw [hcontra] at hsome
            simp at hsome
          · intro hcontra
            dsimp only at hcontra
            exact Option.noConfusion hcontra
    · intro h
      subst h
      rfl
  · intro m hm
    subst hm
    exact ⟨rfl, rfl⟩

/-- Witness for C10 on a concrete one-element move list. -/
theorem c10_trivial_cases_witness :
    (findBestMove ⟨6, true, true, true⟩ h32 (fun _ => false) 0 4 initialBoard true
      [mkMove 6 4 4 4 initialBoard false false false] sStateInit).2.2 =
      some (mkMove 6 4 4 4 initialBoard false false false) ∧
    (findBestMove ⟨6, true, true, true⟩ h32 (fun _ => false) 0 4 initialBoard true
      [mkMove 6 4 4 4 initialBoard false false false] sStateInit).2.1.nodes_searched = 0 :=
  (c10_trivial_cases ⟨6, true, true, true⟩ h32 (fun _ => false) 0 4 initialBoard true
    [mkMove 6 4 4 4 initialBoard false false false] sStateInit).2
    (mkMove 6 4 4 4 initialBoard false false false) rfl

end Chess
